import Mathlib

/-!
Verification of the UpstoX-Trader order & stop-loss engine (`src/app.py`)
against its natural-language specification.

The Python module keeps three global dictionaries — `active_orders`,
`stop_loss_orders` and `instrument_mapping` — and four core functions:
`load_instrument_mapping`, `get_instrument_token`, `process_excel_file`
(the ingestion pipeline, one call per uploaded batch) and
`check_stop_losses` / `execute_stop_loss` (the periodic monitor pass).

Embedding conventions:
* Python dicts are insertion-ordered association lists (`List (κ × α)`);
  stores built only through `dictInsert` have pairwise-distinct keys, which
  the theorems take as a hypothesis where needed.
* Prices are `ℚ` (the code uses floats only as plain ordered numbers; no
  rounding behaviour is relied upon).
* Remote HTTP calls are oracles supplied in an environment record.  An
  oracle result `none` models a raised exception (network error or a body
  that fails to parse as JSON); `some r` models a completed round trip
  whose parsed body is `r`, with `r.accepted` recording whether the body is
  a broker success payload (a field `app.py` itself never inspects).
* Monitor passes additionally return a trace of `Event`s (one per issued
  price lookup and one per liquidation attempt) so that counting
  properties ("at most K lookups", "liquidation placed at most once") can
  be stated.
-/

namespace UpstoxTrader

/-! ## Python dictionaries as association lists -/

/-- `d.get(k)` / `d[k]`: first binding of `k`, if any. -/
def dictGet {κ α : Type} [DecidableEq κ] : List (κ × α) → κ → Option α
  | [], _ => none
  | p :: rest, k => if p.1 = k then some p.2 else dictGet rest k

/-- `d[k] = v`: overwrite in place when the key exists, else append
(CPython dicts keep insertion order and keep an overwritten key's slot). -/
def dictInsert {κ α : Type} [DecidableEq κ] (d : List (κ × α)) (k : κ) (v : α) :
    List (κ × α) :=
  if (dictGet d k).isSome then d.map (fun p => if p.1 = k then (k, v) else p)
  else d ++ [(k, v)]

/-- `del d[k]` (on a store with distinct keys this deletes the single
binding of `k`). -/
def dictRemove {κ α : Type} [DecidableEq κ] (d : List (κ × α)) (k : κ) :
    List (κ × α) :=
  d.filter (fun p => decide (p.1 ≠ k))

/-! ## Data model -/

/-- Python's `s.strip()`: drop leading and trailing whitespace (defined on
the character list so that concrete instances reduce in the kernel). -/
def pyStrip (s : String) : String :=
  String.mk
    (((s.data.dropWhile Char.isWhitespace).reverse.dropWhile Char.isWhitespace).reverse)

/-- Python's `s.upper()`, character by character. -/
def pyUpper (s : String) : String := String.mk (s.data.map Char.toUpper)

/-- Python's `s.strip().upper()`, the symbol normalisation used both by
`load_instrument_mapping` and by `get_instrument_token`. -/
def pyNorm (s : String) : String := pyUpper (pyStrip s)

/-- The `instrument_token` cell of one entry of the instrument dataset:
either a value `int(...)` converts (a numeric), or one it raises on. -/
inductive TokenCell where
  | num (n : Int)
  | malformed
  deriving DecidableEq

/-- One entry of the `NSE.json` dataset; a field is `none` when the key is
absent from the JSON object. -/
structure InstrumentItem where
  symbol : Option String
  instrument_token : Option TokenCell
  deriving DecidableEq

/-- Python `int(cell)`: `none` models the raised `ValueError`. -/
def pyInt : TokenCell → Option Int
  | .num n => some n
  | .malformed => none

/-- The `for item in data` loop inside `load_instrument_mapping`.  The
whole loop runs inside one `try`: a cell on which `int` raises aborts the
remaining entries, keeping what was already inserted.  Entries missing
either key are skipped and the loop continues. -/
def loadLoop (acc : List (String × Int)) : List InstrumentItem → List (String × Int)
  | [] => acc
  | item :: rest =>
      match item.symbol, item.instrument_token with
      | some s, some tc =>
          match pyInt tc with
          | some n => loadLoop (dictInsert acc (pyNorm s) n) rest
          | none => acc
      | some _, none => loadLoop acc rest
      | none, _ => loadLoop acc rest

/-- `load_instrument_mapping` (src/app.py:36-47), starting from the empty
global `instrument_mapping`.  The function returns `None` in Python; the
embedding returns the resulting mapping (the mutated global). -/
def load_instrument_mapping (data : List InstrumentItem) : List (String × Int) :=
  loadLoop [] data

/-- `get_instrument_token` (src/app.py:52-58).  `if not symbol` is the
Python falsiness test on a string, i.e. emptiness. -/
def get_instrument_token (mapping : List (String × Int)) (symbol : String) :
    Option Int :=
  if symbol = "" then none
  else dictGet mapping (pyNorm symbol)

/-- Parsed body of a completed `POST /order/place` round trip.
`order_id` is `result.get('data', {}).get('order_id')`; `accepted` records
whether the body is a broker success payload (never inspected by the
code); `raw` stands in for the rest of the parsed JSON. -/
structure PlaceResp where
  order_id : Option String
  accepted : Bool
  raw : Nat
  deriving DecidableEq

/-- The JSON payload both order-placing call sites serialise. -/
structure OrderPayload where
  quantity : Int
  product : String
  validity : String
  price : ℚ
  tag : String
  instrument_token : Int
  order_type : String
  transaction_type : String
  disclosed_quantity : Int
  trigger_price : ℚ
  is_amo : Bool
  deriving DecidableEq

/-- An `active_orders` value (src/app.py:262-274).  Note the type has no
execution-metadata fields: no code path ever adds any to an
`active_orders` entry. -/
structure OrderRecord where
  symbol : String
  instrument_token : Int
  transaction_type : String
  quantity : Int
  price : ℚ
  order_type : String
  product : String
  time : Nat
  status : String
  response : PlaceResp
  access_token : String
  deriving DecidableEq

/-- A `stop_loss_orders` value (src/app.py:278-286).  Fields are exactly
the keys the ingestion pipeline stores. -/
structure Watch where
  symbol : String
  instrument_token : Int
  quantity : Int
  product : String
  stop_loss_price : ℚ
  buy_price : ℚ
  access_token : String
  deriving DecidableEq

/-- The two global mutable dictionaries (`instrument_mapping` is read-only
after startup and passed separately). -/
structure GlobalState where
  active_orders : List (String × OrderRecord)
  stop_loss_orders : List (String × Watch)
  deriving DecidableEq

/-! ## Ingestion pipeline (`process_excel_file`, src/app.py:204-292) -/

/-- One spreadsheet row, already read through pandas: a field is `none`
when the column is absent (so that `row.get(col, default)` yields the
default). -/
structure Row where
  symbol : String
  instrument_token : Option Int
  transaction_type : Option String
  quantity : Option Int
  price : Option ℚ
  order_type : Option String
  product : Option String
  validity : Option String
  tag : Option String
  disclosed_quantity : Option Int
  trigger_price : Option ℚ
  is_amo : Option Bool
  stop_loss_price : Option ℚ
  deriving DecidableEq

/-- Remote-call oracle for one batch: `place_order i payload` is the
outcome of the `requests.post` issued for row `i` (`none` = exception),
and `now i` is `int(time.time())` when row `i` is processed. -/
structure PipelineEnv where
  place_order : Nat → OrderPayload → Option PlaceResp
  now : Nat → Nat

/-- Python truthiness of an optional integer cell. -/
def optTruthyInt : Option Int → Bool
  | none => false
  | some n => decide (n ≠ 0)

/-- Lines 218-223: use the explicit `instrument_token` cell if truthy,
otherwise resolve the (non-empty) symbol through the registry. -/
def resolvedToken (mapping : List (String × Int)) (row : Row) : Option Int :=
  if optTruthyInt row.instrument_token = false ∧ row.symbol ≠ "" then
    get_instrument_token mapping row.symbol
  else row.instrument_token

/-- Lines 240-252: the order payload serialised for one row. -/
def rowPayload (row : Row) (tok : Int) : OrderPayload :=
  { quantity := row.quantity.getD 1
    product := pyUpper (row.product.getD "I")
    validity := row.validity.getD "DAY"
    price := row.price.getD 0
    tag := row.tag.getD "excel-order"
    instrument_token := tok
    order_type := pyUpper (row.order_type.getD "MARKET")
    transaction_type := pyUpper (row.transaction_type.getD "BUY")
    disclosed_quantity := row.disclosed_quantity.getD 0
    trigger_price := row.trigger_price.getD 0
    is_amo := row.is_amo.getD false }

/-- Lines 258-259: the stored order identifier — the broker's, or the
synthesized `manual-<time>-<index>` fallback when the response omits one. -/
def rowOrderId (result : PlaceResp) (t : Nat) (index : Nat) : String :=
  result.order_id.getD ("manual-" ++ toString t ++ "-" ++ toString index)

/-- Lines 262-274: the `active_orders` record stored for a completed
placement call.  `status` is the literal `'placed'` — there is no code
path writing any other status. -/
def rowRecord (row : Row) (tok : Int) (access_token : String) (t : Nat)
    (result : PlaceResp) : OrderRecord :=
  { symbol := row.symbol
    instrument_token := tok
    transaction_type := pyUpper (row.transaction_type.getD "BUY")
    quantity := row.quantity.getD 1
    price := row.price.getD 0
    order_type := pyUpper (row.order_type.getD "MARKET")
    product := pyUpper (row.product.getD "I")
    time := t
    status := "placed"
    response := result
    access_token := access_token }

/-- Lines 278-286: the stop-loss watch stored for a BUY row that carries a
stop-loss price. -/
def rowWatch (row : Row) (tok : Int) (access_token : String) : Watch :=
  { symbol := row.symbol
    instrument_token := tok
    quantity := row.quantity.getD 1
    product := pyUpper (row.product.getD "I")
    stop_loss_price := row.stop_loss_price.getD 0
    buy_price := row.price.getD 0
    access_token := access_token }

/-- The body of the `for index, row in df.iterrows()` loop
(src/app.py:216-292).  Each row runs under its own `try`: a skipped row or
a raised placement call leaves the state unchanged and the loop continues. -/
def processRow (env : PipelineEnv) (mapping : List (String × Int))
    (access_token : String) (st : GlobalState) (index : Nat) (row : Row) :
    GlobalState :=
  match resolvedToken mapping row with
  | none => st
  | some tok =>
      if tok = 0 then st
      else
        match env.place_order index (rowPayload row tok) with
        | none => st
        | some result =>
            let order_id := rowOrderId result (env.now index) index
            let st1 : GlobalState :=
              { st with active_orders :=
                  (dictInsert st.active_orders order_id
                    (rowRecord row tok access_token (env.now index) result)) }
            if pyUpper (row.transaction_type.getD "BUY") = "BUY" ∧
                row.stop_loss_price.isSome then
              { st1 with stop_loss_orders :=
                  (dictInsert st1.stop_loss_orders order_id
                    (rowWatch row tok access_token)) }
            else st1

/-- The row loop, threading the running index. -/
def processRows (env : PipelineEnv) (mapping : List (String × Int))
    (access_token : String) : Nat → List Row → GlobalState → GlobalState
  | _, [], st => st
  | index, row :: rest, st =>
      processRows env mapping access_token (index + 1) rest
        (processRow env mapping access_token st index row)

/-- `process_excel_file` on an already-parsed batch (the surrounding `try`
only guards the spreadsheet parse itself). -/
def process_excel_file (env : PipelineEnv) (mapping : List (String × Int))
    (access_token : String) (rows : List Row) (st : GlobalState) : GlobalState :=
  processRows env mapping access_token 0 rows st

/-! ## Stop-loss monitor (`check_stop_losses`, src/app.py:60-163) -/

/-- Oracles for one monitor pass: `get_current_price tok a` is the LTP
call of src/app.py:105-124 (its internal `try` and status check make it
return `None` rather than raise, covered by `none` here);
`place_order oid payload a` is the `requests.post` + `response.json()` of
`execute_stop_loss` (`none` = either raised).  The `oid` argument only
keys the oracle so distinct watches may see distinct outcomes. -/
structure MonitorEnv where
  get_current_price : Int → String → Option ℚ
  place_order : String → OrderPayload → String → Option PlaceResp
  now : Nat

/-- Line 98: `if stop_loss_price and current_price <= float(stop_loss_price)`.
The first conjunct is float truthiness — `0.0` is falsy. -/
def slTriggered (stop_loss_price current_price : ℚ) : Bool :=
  decide (stop_loss_price ≠ 0) && decide (current_price ≤ stop_loss_price)

/-- Lines 135-147: the liquidating MARKET SELL payload.  The watch dict
has no `validity` key, so `order.get('validity', 'DAY')` is `"DAY"`. -/
def stopLossPayload (order : Watch) : OrderPayload :=
  { quantity := order.quantity
    product := order.product
    validity := "DAY"
    price := 0
    tag := "stop-loss-order"
    instrument_token := order.instrument_token
    order_type := "MARKET"
    transaction_type := "SELL"
    disclosed_quantity := 0
    trigger_price := 0
    is_amo := false }

/-- Trace of a monitor pass: one `priceLookup` per LTP call issued and one
`liqAttempt` per `execute_stop_loss` call, carrying the call's outcome. -/
inductive Event where
  | priceLookup (instrument_token : Int) (access_token : String)
  | liqAttempt (order_id : String) (outcome : Option PlaceResp) (current_price : ℚ)
  deriving DecidableEq

/-- `execute_stop_loss` (src/app.py:126-163).  On a completed round trip
the code sets `stop_loss_executed` / `execution_price` / `execution_time`
/ `execution_response` on the local watch dict `order` — a write that is
dead, because the next statement deletes that very dict from
`stop_loss_orders` and nothing else references it — and then removes the
watch.  `active_orders` is never touched.  On a raised call the `except`
swallows the error and nothing changes. -/
def execute_stop_loss (env : MonitorEnv) (order_id : String) (order : Watch)
    (current_price : ℚ) (st : GlobalState) : GlobalState × List Event :=
  match env.place_order order_id (stopLossPayload order) order.access_token with
  | none => (st, [Event.liqAttempt order_id none current_price])
  | some result =>
      ({ st with stop_loss_orders := dictRemove st.stop_loss_orders order_id },
       [Event.liqAttempt order_id (some result) current_price])

/-- Lines 94-101: the inner `for order_id in order_ids` loop for one
instrument group, given that group's fetched price.  A missing key
(`stop_loss_orders[order_id]` raising `KeyError`) would be caught by the
per-token `except`, skipping the rest of the group — unreachable when the
store's keys are distinct, since only the executed id itself is deleted. -/
def checkOrdersForToken (env : MonitorEnv) (current_price : ℚ) :
    List String → GlobalState → GlobalState × List Event
  | [], st => (st, [])
  | order_id :: rest, st =>
      match dictGet st.stop_loss_orders order_id with
      | none => (st, [])
      | some order =>
          if slTriggered order.stop_loss_price current_price then
            let r := execute_stop_loss env order_id order current_price st
            let r2 := checkOrdersForToken env current_price rest r.1
            (r2.1, r.2 ++ r2.2)
          else checkOrdersForToken env current_price rest st

/-- Lines 85-103: the outer `for token, order_ids in tokens_to_check`
loop.  Every iteration issues exactly one LTP call (recorded as a
`priceLookup` event); a `None` price skips the group and continues. -/
def checkTokens (env : MonitorEnv) (access_token : String) :
    List (Int × List String) → GlobalState → GlobalState × List Event
  | [], st => (st, [])
  | (tok, order_ids) :: rest, st =>
      match env.get_current_price tok access_token with
      | none =>
          let r := checkTokens env access_token rest st
          (r.1, Event.priceLookup tok access_token :: r.2)
      | some current_price =>
          let r1 := checkOrdersForToken env current_price order_ids st
          let r2 := checkTokens env access_token rest r1.1
          (r2.1, Event.priceLookup tok access_token :: (r1.2 ++ r2.2))

/-- Lines 80-82: append an order id to its token's bucket, creating the
bucket on first sight (dict insertion order). -/
def addToGroup (acc : List (Int × List String)) (tok : Int) (order_id : String) :
    List (Int × List String) :=
  if (dictGet acc tok).isSome then
    acc.map (fun g => if g.1 = tok then (g.1, g.2 ++ [order_id]) else g)
  else acc ++ [(tok, [order_id])]

/-- Lines 75-82: `tokens_to_check`, grouping watches by truthy
`instrument_token`. -/
def groupByToken (sl : List (String × Watch)) : List (Int × List String) :=
  sl.foldl
    (fun acc p =>
      if p.2.instrument_token ≠ 0 then addToGroup acc p.2.instrument_token p.1
      else acc)
    []

/-- `check_stop_losses` (src/app.py:60-103).  An empty store returns at
once; the access token is read from the *first* watch in the store
(`next(iter(stop_loss_orders))`) and a falsy token abandons the whole
pass. -/
def check_stop_losses (env : MonitorEnv) (st : GlobalState) :
    GlobalState × List Event :=
  match st.stop_loss_orders with
  | [] => (st, [])
  | (_, first) :: _ =>
      if first.access_token = "" then (st, [])
      else checkTokens env first.access_token (groupByToken st.stop_loss_orders) st

/-- A sequence of scheduler ticks (src/app.py:322-325), one environment
per pass; between the passes nothing else mutates the store. -/
def runPasses : List MonitorEnv → GlobalState → GlobalState × List Event
  | [], st => (st, [])
  | env :: rest, st =>
      let r := check_stop_losses env st
      let r2 := runPasses rest r.1
      (r2.1, r.2 ++ r2.2)

/-! ## Trace observers -/

/-- Does this event record a liquidation attempt for `order_id`? -/
def isLiqAttemptFor (order_id : String) : Event → Bool
  | .liqAttempt oid _ _ => oid == order_id
  | _ => false

/-- Does this event record a liquidation call for `order_id` whose HTTP
round trip completed (order handed to the broker, body parsed)? -/
def isLiqCompletedFor (order_id : String) : Event → Bool
  | .liqAttempt oid (some _) _ => oid == order_id
  | _ => false

/-- Number of liquidation attempts for `order_id` in a trace. -/
def liqAttemptCount (evs : List Event) (order_id : String) : Nat :=
  (evs.filter (isLiqAttemptFor order_id)).length

/-- Number of completed liquidation calls for `order_id` in a trace. -/
def liqCompletedCount (evs : List Event) (order_id : String) : Nat :=
  (evs.filter (isLiqCompletedFor order_id)).length

/-- Instrument tokens of the price lookups issued in a trace, in order. -/
def lookupTokens (evs : List Event) : List Int :=
  evs.filterMap (fun e =>
    match e with
    | .priceLookup t _ => some t
    | _ => none)

/-! ## Pass specification (pure description of one monitor pass) -/

/-- What one pass with first-watch credential `a` does to the single watch
`(oid, w)`: `none` when its instrument's lookup failed (or its token is
falsy) or its trigger did not fire; otherwise the observed price and the
liquidation call's outcome. -/
def watchOutcome (env : MonitorEnv) (a : String) (oid : String) (w : Watch) :
    Option (ℚ × Option PlaceResp) :=
  if w.instrument_token = 0 then none
  else
    match env.get_current_price w.instrument_token a with
    | none => none
    | some c =>
        if slTriggered w.stop_loss_price c then
          some (c, env.place_order oid (stopLossPayload w) w.access_token)
        else none

/-- Whether the pass removes the watch: exactly when its liquidation call
completed (regardless of broker acceptance). -/
def watchRemoved (env : MonitorEnv) (a : String) (oid : String) (w : Watch) : Bool :=
  match watchOutcome env a oid w with
  | some (_, some _) => true
  | _ => false

/-- The liquidation-attempt event generated for one grouped order id,
reading its watch from `sl`. -/
def watchAttemptEvent (env : MonitorEnv) (sl : List (String × Watch))
    (current_price : ℚ) (order_id : String) : Option Event :=
  match dictGet sl order_id with
  | none => none
  | some w =>
      if slTriggered w.stop_loss_price current_price then
        some (Event.liqAttempt order_id
          (env.place_order order_id (stopLossPayload w) w.access_token)
          current_price)
      else none

/-- Per-group events of one pass, reading watches from `sl`. -/
def tokenEvents (env : MonitorEnv) (a : String) (sl : List (String × Watch))
    (g : Int × List String) : List Event :=
  Event.priceLookup g.1 a ::
    match env.get_current_price g.1 a with
    | none => []
    | some c => g.2.filterMap (watchAttemptEvent env sl c)

/-- The full event trace of one (non-degenerate) pass. -/
def passEvents (env : MonitorEnv) (a : String) (sl : List (String × Watch)) :
    List Event :=
  (groupByToken sl).flatMap (tokenEvents env a sl)

/-! ## Dictionary lemmas -/

theorem dictGet_eq_none_iff {κ α : Type} [DecidableEq κ] (d : List (κ × α)) (k : κ) :
    dictGet d k = none ↔ k ∉ d.map Prod.fst := by
  induction d with
  | nil => simp [dictGet]
  | cons p rest ih =>
      by_cases h : p.1 = k
      · simp [dictGet, h]
      · simp [dictGet, h, ih, Ne.symm h]

theorem mem_of_dictGet_eq_some {κ α : Type} [DecidableEq κ]
    {d : List (κ × α)} {k : κ} {v : α} (h : dictGet d k = some v) : (k, v) ∈ d := by
  induction d with
  | nil => simp [dictGet] at h
  | cons p rest ih =>
      by_cases hp : p.1 = k
      · rw [dictGet, if_pos hp] at h
        obtain ⟨p1, p2⟩ := p
        cases hp
        cases h
        exact List.mem_cons_self _ _
      · rw [dictGet, if_neg hp] at h
        exact List.mem_cons_of_mem _ (ih h)

theorem dictGet_isSome_of_mem {κ α : Type} [DecidableEq κ]
    {d : List (κ × α)} {p : κ × α} (h : p ∈ d) : (dictGet d p.1).isSome := by
  induction d with
  | nil => simp at h
  | cons q rest ih =>
      rcases List.mem_cons.1 h with rfl | h
      · simp [dictGet]
      · by_cases hq : q.1 = p.1
        · simp [dictGet, hq]
        · simpa [dictGet, hq] using ih h

theorem dictGet_of_mem {κ α : Type} [DecidableEq κ]
    {d : List (κ × α)} {p : κ × α} (hnd : (d.map Prod.fst).Nodup) (h : p ∈ d) :
    dictGet d p.1 = some p.2 := by
  induction d with
  | nil => simp at h
  | cons q rest ih =>
      rw [List.map_cons, List.nodup_cons] at hnd
      rcases List.mem_cons.1 h with rfl | h
      · simp [dictGet]
      · have hq : q.1 ≠ p.1 := by
          intro he
          exact hnd.1 (he ▸ List.mem_map_of_mem Prod.fst h)
        rw [dictGet, if_neg hq]
        exact ih hnd.2 h

theorem dictGet_eq_some_iff {κ α : Type} [DecidableEq κ]
    {d : List (κ × α)} (hnd : (d.map Prod.fst).Nodup) (k : κ) (v : α) :
    dictGet d k = some v ↔ (k, v) ∈ d :=
  ⟨mem_of_dictGet_eq_some, fun h => dictGet_of_mem hnd h⟩

theorem mem_map_fst_iff {κ α : Type} {d : List (κ × α)} {k : κ} :
    k ∈ d.map Prod.fst ↔ ∃ v, (k, v) ∈ d := by
  constructor
  · intro h
    obtain ⟨p, hp, he⟩ := List.mem_map.1 h
    exact ⟨p.2, by rwa [show (k, p.2) = p from Prod.ext he.symm rfl]⟩
  · rintro ⟨v, hv⟩
    exact List.mem_map.2 ⟨(k, v), hv, rfl⟩

theorem value_unique {κ α : Type} [DecidableEq κ] {d : List (κ × α)}
    (hnd : (d.map Prod.fst).Nodup) {k : κ} {v v' : α}
    (h : (k, v) ∈ d) (h' : (k, v') ∈ d) : v = v' := by
  have e1 := dictGet_of_mem hnd h
  have e2 := dictGet_of_mem hnd h'
  rw [e1] at e2
  exact Option.some.inj e2

theorem dictGet_filter {κ α : Type} [DecidableEq κ]
    {d : List (κ × α)} (hnd : (d.map Prod.fst).Nodup) (f : κ × α → Bool) (k : κ) :
    dictGet (d.filter f) k =
      match dictGet d k with
      | none => none
      | some v => if f (k, v) then some v else none := by
  induction d with
  | nil => simp [dictGet]
  | cons p rest ih =>
      rw [List.map_cons, List.nodup_cons] at hnd
      by_cases hp : p.1 = k
      · obtain ⟨p1, p2⟩ := p
        cases hp
        have hrest : dictGet rest p1 = none :=
          (dictGet_eq_none_iff rest p1).2 hnd.1
        by_cases hf : f (p1, p2)
        · simp [dictGet, hf, List.filter_cons]
        · simp only [List.filter_cons, hf]
          simp only [Bool.false_eq_true, if_false]
          rw [ih hnd.2, hrest]
          simp [dictGet, hf]
      · by_cases hf : f p
        · simp only [List.filter_cons, hf, if_true]
          rw [dictGet, if_neg hp, dictGet, if_neg hp]
          exact ih hnd.2
        · simp only [List.filter_cons, hf]
          simp only [Bool.false_eq_true, if_false]
          rw [dictGet, if_neg hp]
          exact ih hnd.2

theorem dictGet_dictRemove_ne {κ α : Type} [DecidableEq κ]
    (d : List (κ × α)) {k k' : κ} (h : k' ≠ k) :
    dictGet (dictRemove d k) k' = dictGet d k' := by
  induction d with
  | nil => rfl
  | cons p rest ih =>
      by_cases hp : p.1 = k
      · have h1 : dictRemove (p :: rest) k = dictRemove rest k := by
          simp [dictRemove, List.filter_cons, hp]
        rw [h1, ih, dictGet, if_neg (fun he => h (he.symm.trans hp))]
      · have h1 : dictRemove (p :: rest) k = p :: dictRemove rest k := by
          simp [dictRemove, List.filter_cons, hp]
        rw [h1]
        by_cases hk : p.1 = k'
        · rw [dictGet, if_pos hk, dictGet, if_pos hk]
        · rw [dictGet, if_neg hk, dictGet, if_neg hk, ih]

theorem keysNodup_filter {κ α : Type} {d : List (κ × α)}
    (hnd : (d.map Prod.fst).Nodup) (f : κ × α → Bool) :
    ((d.filter f).map Prod.fst).Nodup :=
  hnd.sublist (List.Sublist.map Prod.fst (List.filter_sublist d))

theorem map_fst_dictInsert {κ α : Type} [DecidableEq κ]
    (d : List (κ × α)) (k : κ) (v : α) :
    (dictInsert d k v).map Prod.fst =
      if (dictGet d k).isSome then d.map Prod.fst else d.map Prod.fst ++ [k] := by
  unfold dictInsert
  by_cases h : (dictGet d k).isSome
  · rw [if_pos h, if_pos h, List.map_map]
    congr 1
    funext p
    by_cases hp : p.1 = k <;> simp [hp]
  · rw [if_neg h, if_neg h, List.map_append]
    rfl

theorem keysNodup_dictInsert {κ α : Type} [DecidableEq κ]
    {d : List (κ × α)} (hnd : (d.map Prod.fst).Nodup) (k : κ) (v : α) :
    ((dictInsert d k v).map Prod.fst).Nodup := by
  rw [map_fst_dictInsert]
  by_cases h : (dictGet d k).isSome
  · rwa [if_pos h]
  · rw [if_neg h]
    have hk : k ∉ d.map Prod.fst := by
      rw [← dictGet_eq_none_iff]
      exact Option.not_isSome_iff_eq_none.1 h
    refine List.Nodup.append hnd (List.nodup_singleton k) ?_
    intro a ha ha2
    rw [List.mem_singleton] at ha2
    exact hk (ha2 ▸ ha)

theorem mem_dictInsert {κ α : Type} [DecidableEq κ]
    {d : List (κ × α)} {k : κ} {v : α} {p : κ × α}
    (h : p ∈ dictInsert d k v) : p ∈ d ∨ p = (k, v) := by
  unfold dictInsert at h
  by_cases hs : (dictGet d k).isSome
  · rw [if_pos hs] at h
    obtain ⟨q, hq, he⟩ := List.mem_map.1 h
    by_cases hqk : q.1 = k
    · right
      rw [if_pos hqk] at he
      exact he.symm
    · left
      rw [if_neg hqk] at he
      exact he ▸ hq
  · rw [if_neg hs] at h
    rcases List.mem_append.1 h with h | h
    · exact Or.inl h
    · exact Or.inr (List.mem_singleton.1 h)

/-! ## Grouping lemmas (`tokens_to_check`) -/

/-- Everything the monitor pass needs to know about the group table built
from the watches `sl`: tokens are distinct and truthy, each bucket's ids
are distinct, each grouped id belongs to a watch in `sl` with that bucket's
token, and every watch with a truthy token is grouped under it. -/
def GroupsSpec (sl : List (String × Watch)) (groups : List (Int × List String)) :
    Prop :=
  ((groups.map Prod.fst).Nodup) ∧
  (∀ g ∈ groups, g.1 ≠ 0) ∧
  (∀ g ∈ groups, g.2.Nodup) ∧
  (∀ g ∈ groups, ∀ oid ∈ g.2, ∃ w, (oid, w) ∈ sl ∧ w.instrument_token = g.1) ∧
  (∀ p ∈ sl, p.2.instrument_token ≠ 0 →
    ∃ g ∈ groups, g.1 = p.2.instrument_token ∧ p.1 ∈ g.2)

theorem groupsSpec_nil : GroupsSpec [] [] := by
  refine ⟨List.nodup_nil, ?_, ?_, ?_, ?_⟩ <;> simp

theorem groupsSpec_step (pre : List (String × Watch)) (groups : List (Int × List String))
    (p : String × Watch) (hnew : p.1 ∉ pre.map Prod.fst) (h : GroupsSpec pre groups) :
    GroupsSpec (pre ++ [p])
      (if p.2.instrument_token ≠ 0 then addToGroup groups p.2.instrument_token p.1
       else groups) := by
  obtain ⟨h1, h2, h3, h4, h5⟩ := h
  by_cases ht : p.2.instrument_token ≠ 0
  · rw [if_pos ht]
    set t := p.2.instrument_token with hteq
    unfold addToGroup
    by_cases hs : (dictGet groups t).isSome
    · rw [if_pos hs]
      obtain ⟨oids, hoids⟩ := Option.isSome_iff_exists.1 hs
      have hmem : (t, oids) ∈ groups := mem_of_dictGet_eq_some hoids
      refine ⟨?_, ?_, ?_, ?_, ?_⟩
      · have : (groups.map (fun g => if g.1 = t then (g.1, g.2 ++ [p.1]) else g)).map
            Prod.fst = groups.map Prod.fst := by
          rw [List.map_map]
          refine List.map_congr_left ?_
          intro g _
          by_cases hg : g.1 = t <;> simp [hg]
        rw [this]
        exact h1
      · intro g hg
        obtain ⟨g0, hg0, he⟩ := List.mem_map.1 hg
        by_cases hgt : g0.1 = t
        · rw [if_pos hgt] at he
          rw [← he]
          exact hgt ▸ h2 g0 hg0
        · rw [if_neg hgt] at he
          exact he ▸ h2 g0 hg0
      · intro g hg
        obtain ⟨g0, hg0, he⟩ := List.mem_map.1 hg
        by_cases hgt : g0.1 = t
        · rw [if_pos hgt] at he
          rw [← he]
          refine List.Nodup.append (h3 g0 hg0) (List.nodup_singleton _) ?_
          intro x hx hx2
          rw [List.mem_singleton] at hx2
          obtain ⟨w, hw, _⟩ := h4 g0 hg0 x hx
          exact hnew (hx2 ▸ List.mem_map_of_mem Prod.fst hw)
        · rw [if_neg hgt] at he
          exact he ▸ h3 g0 hg0
      · intro g hg oid hoid
        obtain ⟨g0, hg0, he⟩ := List.mem_map.1 hg
        by_cases hgt : g0.1 = t
        · rw [if_pos hgt] at he
          rw [← he] at hoid ⊢
          rcases List.mem_append.1 hoid with hoid | hoid
          · obtain ⟨w, hw, hwt⟩ := h4 g0 hg0 oid hoid
            exact ⟨w, List.mem_append_left _ hw, hgt ▸ hwt⟩
          · rw [List.mem_singleton] at hoid
            refine ⟨p.2, ?_, hgt ▸ hteq.symm⟩
            rw [hoid]
            exact List.mem_append_right _ (List.mem_singleton.2 rfl)
        · rw [if_neg hgt] at he
          rw [← he] at hoid ⊢
          obtain ⟨w, hw, hwt⟩ := h4 g0 hg0 oid hoid
          exact ⟨w, List.mem_append_left _ hw, hwt⟩
      · intro q hq hqt
        rcases List.mem_append.1 hq with hq | hq
        · obtain ⟨g, hg, hgt, hgq⟩ := h5 q hq hqt
          refine ⟨(if g.1 = t then (g.1, g.2 ++ [p.1]) else g), List.mem_map_of_mem _ hg, ?_⟩
          by_cases hgt2 : g.1 = t
          · rw [if_pos hgt2]
            exact ⟨hgt, List.mem_append_left _ hgq⟩
          · rw [if_neg hgt2]
            exact ⟨hgt, hgq⟩
        · rw [List.mem_singleton] at hq
          rw [hq] at hqt ⊢
          refine ⟨(t, oids ++ [p.1]), ?_, rfl, List.mem_append_right _ (List.mem_singleton.2 rfl)⟩
          have : (t, oids ++ [p.1]) = (fun g => if g.1 = t then (g.1, g.2 ++ [p.1]) else g)
              (t, oids) := by simp
          rw [this]
          exact List.mem_map_of_mem _ hmem
    · rw [if_neg hs]
      have htnotin : t ∉ groups.map Prod.fst := by
        rw [← dictGet_eq_none_iff]
        exact Option.not_isSome_iff_eq_none.1 hs
      refine ⟨?_, ?_, ?_, ?_, ?_⟩
      · rw [List.map_append]
        refine List.Nodup.append h1 (List.nodup_singleton t) ?_
        intro x hx hx2
        rw [List.map_singleton, List.mem_singleton] at hx2
        subst hx2
        exact htnotin hx
      · intro g hg
        rcases List.mem_append.1 hg with hg | hg
        · exact h2 g hg
        · rw [List.mem_singleton] at hg
          exact hg ▸ ht
      · intro g hg
        rcases List.mem_append.1 hg with hg | hg
        · exact h3 g hg
        · rw [List.mem_singleton] at hg
          exact hg ▸ List.nodup_singleton _
      · intro g hg oid hoid
        rcases List.mem_append.1 hg with hg | hg
        · obtain ⟨w, hw, hwt⟩ := h4 g hg oid hoid
          exact ⟨w, List.mem_append_left _ hw, hwt⟩
        · rw [List.mem_singleton] at hg
          subst hg
          rw [List.mem_singleton] at hoid
          refine ⟨p.2, ?_, hteq.symm⟩
          rw [hoid]
          exact List.mem_append_right _ (List.mem_singleton.2 rfl)
      · intro q hq hqt
        rcases List.mem_append.1 hq with hq | hq
        · obtain ⟨g, hg, hgt, hgq⟩ := h5 q hq hqt
          exact ⟨g, List.mem_append_left _ hg, hgt, hgq⟩
        · rw [List.mem_singleton] at hq
          rw [hq] at hqt ⊢
          exact ⟨(t, [p.1]), List.mem_append_right _ (List.mem_singleton.2 rfl), rfl,
            List.mem_singleton.2 rfl⟩
  · rw [if_neg ht]
    push_neg at ht
    refine ⟨h1, h2, h3, ?_, ?_⟩
    · intro g hg oid hoid
      obtain ⟨w, hw, hwt⟩ := h4 g hg oid hoid
      exact ⟨w, List.mem_append_left _ hw, hwt⟩
    · intro q hq hqt
      rcases List.mem_append.1 hq with hq | hq
      · obtain ⟨g, hg, hgt, hgq⟩ := h5 q hq hqt
        exact ⟨g, hg, hgt, hgq⟩
      · rw [List.mem_singleton] at hq
        rw [hq] at hqt
        exact absurd ht hqt

theorem groupsSpec_foldl (l : List (String × Watch)) :
    ∀ (pre : List (String × Watch)) (groups : List (Int × List String)),
      (((pre ++ l).map Prod.fst).Nodup) → GroupsSpec pre groups →
      GroupsSpec (pre ++ l)
        (l.foldl
          (fun acc p =>
            if p.2.instrument_token ≠ 0 then addToGroup acc p.2.instrument_token p.1
            else acc)
          groups) := by
  induction l with
  | nil => intro pre groups _ h; simpa using h
  | cons p rest ih =>
      intro pre groups hnd h
      have hnew : p.1 ∉ pre.map Prod.fst := by
        intro hmem
        rw [List.map_append, List.nodup_append] at hnd
        exact hnd.2.2 hmem (by simp)
      have hstep := groupsSpec_step pre groups p hnew h
      have hnd2 : (((pre ++ [p]) ++ rest).map Prod.fst).Nodup := by
        rwa [List.append_assoc, List.singleton_append]
      have := ih (pre ++ [p]) _ hnd2 hstep
      rwa [List.append_assoc, List.singleton_append] at this

theorem groupsSpec_groupByToken (sl : List (String × Watch))
    (hnd : (sl.map Prod.fst).Nodup) : GroupsSpec sl (groupByToken sl) := by
  have := groupsSpec_foldl sl [] [] (by simpa using hnd) groupsSpec_nil
  simpa [groupByToken] using this

theorem addToGroup_length (acc : List (Int × List String)) (tok : Int) (oid : String) :
    (addToGroup acc tok oid).length ≤ acc.length + 1 := by
  unfold addToGroup
  by_cases hs : (dictGet acc tok).isSome
  · rw [if_pos hs, List.length_map]
    omega
  · rw [if_neg hs, List.length_append]
    simp

theorem groupByToken_length_aux (l : List (String × Watch)) :
    ∀ (groups : List (Int × List String)),
      (l.foldl
        (fun acc p =>
          if p.2.instrument_token ≠ 0 then addToGroup acc p.2.instrument_token p.1
          else acc)
        groups).length ≤ groups.length + l.length := by
  induction l with
  | nil => intro groups; simp
  | cons p rest ih =>
      intro groups
      rw [List.foldl_cons]
      by_cases ht : p.2.instrument_token ≠ 0
      · rw [if_pos ht]
        calc _ ≤ (addToGroup groups p.2.instrument_token p.1).length + rest.length := ih _
          _ ≤ (groups.length + 1) + rest.length := by
              have := addToGroup_length groups p.2.instrument_token p.1
              omega
          _ = groups.length + (p :: rest).length := by rw [List.length_cons]; omega
      · rw [if_neg ht]
        calc _ ≤ groups.length + rest.length := ih _
          _ ≤ groups.length + (p :: rest).length := by rw [List.length_cons]; omega

theorem groupByToken_length (sl : List (String × Watch)) :
    (groupByToken sl).length ≤ sl.length := by
  have := groupByToken_length_aux sl []
  simpa [groupByToken] using this

/-! ## One instrument group (`checkOrdersForToken`) -/

/-- Whether processing this watch at observed price `current_price` ends in
its deletion: trigger fired and the liquidation round trip completed. -/
def groupRemoves (env : MonitorEnv) (current_price : ℚ) (p : String × Watch) : Bool :=
  slTriggered p.2.stop_loss_price current_price &&
    (env.place_order p.1 (stopLossPayload p.2) p.2.access_token).isSome

theorem checkOrdersForToken_spec (env : MonitorEnv) (c : ℚ) :
    ∀ (oids : List String) (st : GlobalState),
      oids.Nodup →
      ((st.stop_loss_orders.map Prod.fst).Nodup) →
      (∀ oid ∈ oids, ∃ w, (oid, w) ∈ st.stop_loss_orders) →
      checkOrdersForToken env c oids st =
        ({ active_orders := st.active_orders,
           stop_loss_orders := st.stop_loss_orders.filter
             (fun p => !(decide (p.1 ∈ oids) && groupRemoves env c p)) },
         oids.filterMap (watchAttemptEvent env st.stop_loss_orders c)) := by
  intro oids
  induction oids with
  | nil =>
      intro st _ _ _
      have hfun : (fun p : String × Watch =>
          !(decide (p.1 ∈ ([] : List String)) && groupRemoves env c p)) =
          fun _ => true := funext fun p => by simp
      obtain ⟨ao, sl⟩ := st
      simp [checkOrdersForToken, hfun, List.filter_true]
  | cons oid rest ih =>
      intro st hnodup hkeys hmem
      obtain ⟨w, hw⟩ := hmem oid (List.mem_cons_self _ _)
      have hget : dictGet st.stop_loss_orders oid = some w := dictGet_of_mem hkeys hw
      rw [List.nodup_cons] at hnodup
      obtain ⟨hoidnotin, hrestnodup⟩ := hnodup
      have hvalue : ∀ p ∈ st.stop_loss_orders, p.1 = oid → p.2 = w := by
        intro p hp hpo
        have h2 := dictGet_of_mem hkeys hp
        rw [hpo, hget] at h2
        exact (Option.some.inj h2).symm
      by_cases htr : slTriggered w.stop_loss_price c = true
      · cases hpl : env.place_order oid (stopLossPayload w) w.access_token with
        | none =>
            have hstep : checkOrdersForToken env c (oid :: rest) st =
                (let r2 := checkOrdersForToken env c rest st
                 (r2.1, Event.liqAttempt oid none c :: r2.2)) := by
              simp [checkOrdersForToken, hget, htr, execute_stop_loss, hpl]
            rw [hstep,
              ih st hrestnodup hkeys (fun o ho => hmem o (List.mem_cons_of_mem _ ho))]
            have hstate : st.stop_loss_orders.filter
                (fun p => !(decide (p.1 ∈ rest) && groupRemoves env c p)) =
                st.stop_loss_orders.filter
                  (fun p => !(decide (p.1 ∈ oid :: rest) && groupRemoves env c p)) := by
              apply List.filter_congr
              intro p hp
              by_cases hpo : p.1 = oid
              · have hgr : groupRemoves env c p = false := by
                  unfold groupRemoves
                  rw [hvalue p hp hpo, hpo, hpl]
                  simp
                simp [hgr]
              · simp [List.mem_cons, hpo]
            have hevents : watchAttemptEvent env st.stop_loss_orders c oid =
                some (Event.liqAttempt oid none c) := by
              unfold watchAttemptEvent
              rw [hget]
              simp [htr, hpl]
            simp only [hstate, List.filterMap_cons, hevents]
        | some resp =>
            have hoidne : ∀ o ∈ rest, o ≠ oid := by
              intro o ho he
              exact hoidnotin (he ▸ ho)
            have hstep : checkOrdersForToken env c (oid :: rest) st =
                ((checkOrdersForToken env c rest
                    { st with stop_loss_orders := dictRemove st.stop_loss_orders oid }).1,
                 Event.liqAttempt oid (some resp) c ::
                   (checkOrdersForToken env c rest
                     { st with stop_loss_orders := dictRemove st.stop_loss_orders oid }).2) := by
              simp [checkOrdersForToken, hget, htr, execute_stop_loss, hpl]
            have hkeys2 : (((dictRemove st.stop_loss_orders oid).map Prod.fst).Nodup) :=
              keysNodup_filter hkeys _
            have hmem2 : ∀ o ∈ rest, ∃ w2,
                (o, w2) ∈ dictRemove st.stop_loss_orders oid := by
              intro o ho
              obtain ⟨w2, hw2⟩ := hmem o (List.mem_cons_of_mem _ ho)
              refine ⟨w2, List.mem_filter.2 ⟨hw2, ?_⟩⟩
              simp [hoidne o ho]
            rw [hstep]
            have hih := ih { st with stop_loss_orders := dictRemove st.stop_loss_orders oid }
              hrestnodup hkeys2 hmem2
            rw [hih]
            have hstate : (dictRemove st.stop_loss_orders oid).filter
                (fun p => !(decide (p.1 ∈ rest) && groupRemoves env c p)) =
                st.stop_loss_orders.filter
                  (fun p => !(decide (p.1 ∈ oid :: rest) && groupRemoves env c p)) := by
              unfold dictRemove
              rw [List.filter_filter]
              apply List.filter_congr
              intro p hp
              by_cases hpo : p.1 = oid
              · have hgr : groupRemoves env c p = true := by
                  unfold groupRemoves
                  rw [hvalue p hp hpo, hpo, hpl]
                  simp [htr]
                simp [hgr, hpo, List.mem_cons]
              · simp [List.mem_cons, hpo]
            have hevget : ∀ o ∈ rest,
                watchAttemptEvent env (dictRemove st.stop_loss_orders oid) c o =
                watchAttemptEvent env st.stop_loss_orders c o := by
              intro o ho
              unfold watchAttemptEvent
              rw [dictGet_dictRemove_ne _ (hoidne o ho)]
            have hevhead : watchAttemptEvent env st.stop_loss_orders c oid =
                some (Event.liqAttempt oid (some resp) c) := by
              unfold watchAttemptEvent
              rw [hget]
              simp [htr, hpl]
            simp only [hstate, List.filterMap_congr hevget, List.filterMap_cons, hevhead]
      · have hstep : checkOrdersForToken env c (oid :: rest) st =
            checkOrdersForToken env c rest st := by
          simp [checkOrdersForToken, hget, htr]
        rw [hstep,
          ih st hrestnodup hkeys (fun o ho => hmem o (List.mem_cons_of_mem _ ho))]
        have hstate : st.stop_loss_orders.filter
            (fun p => !(decide (p.1 ∈ rest) && groupRemoves env c p)) =
            st.stop_loss_orders.filter
              (fun p => !(decide (p.1 ∈ oid :: rest) && groupRemoves env c p)) := by
          apply List.filter_congr
          intro p hp
          by_cases hpo : p.1 = oid
          · have hgr : groupRemoves env c p = false := by
              unfold groupRemoves
              rw [hvalue p hp hpo]
              simp [htr]
            simp [hgr]
          · simp [List.mem_cons, hpo]
        have hevents : watchAttemptEvent env st.stop_loss_orders c oid = none := by
          unfold watchAttemptEvent
          rw [hget]
          simp [htr]
        simp only [hstate, List.filterMap_cons, hevents]

/-! ## The token loop (`checkTokens`) -/

/-- The part of `GroupsSpec` the token loop consumes: distinct truthy
tokens, distinct bucket ids, each grouped id present in the store with the
bucket's token. -/
def GroupsSound (groups : List (Int × List String)) (sl : List (String × Watch)) :
    Prop :=
  ((groups.map Prod.fst).Nodup) ∧
  (∀ g ∈ groups, g.1 ≠ 0) ∧
  (∀ g ∈ groups, g.2.Nodup) ∧
  (∀ g ∈ groups, ∀ oid ∈ g.2, ∃ w, (oid, w) ∈ sl ∧ w.instrument_token = g.1)

theorem watchRemoved_eq_groupRemoves (env : MonitorEnv) (a : String)
    (p : String × Watch) (c : ℚ) (ht : p.2.instrument_token ≠ 0)
    (hc : env.get_current_price p.2.instrument_token a = some c) :
    watchRemoved env a p.1 p.2 = groupRemoves env c p := by
  unfold watchRemoved watchOutcome groupRemoves
  rw [if_neg ht, hc]
  by_cases htr : slTriggered p.2.stop_loss_price c = true
  · cases hpl : env.place_order p.1 (stopLossPayload p.2) p.2.access_token <;>
      simp [htr, hpl]
  · simp [htr]

theorem watchRemoved_of_price_none (env : MonitorEnv) (a : String)
    (p : String × Watch)
    (hc : env.get_current_price p.2.instrument_token a = none) :
    watchRemoved env a p.1 p.2 = false := by
  unfold watchRemoved watchOutcome
  by_cases ht : p.2.instrument_token = 0
  · simp [ht]
  · rw [if_neg ht, hc]

theorem watchRemoved_of_token_zero (env : MonitorEnv) (a : String)
    (p : String × Watch) (ht : p.2.instrument_token = 0) :
    watchRemoved env a p.1 p.2 = false := by
  simp [watchRemoved, watchOutcome, ht]

theorem checkTokens_spec (env : MonitorEnv) (a : String) :
    ∀ (groups : List (Int × List String)) (st : GlobalState),
      ((st.stop_loss_orders.map Prod.fst).Nodup) →
      GroupsSound groups st.stop_loss_orders →
      checkTokens env a groups st =
        ({ active_orders := st.active_orders,
           stop_loss_orders := st.stop_loss_orders.filter
             (fun p => !(decide (∃ g ∈ groups, p.1 ∈ g.2) &&
                watchRemoved env a p.1 p.2)) },
         groups.flatMap (tokenEvents env a st.stop_loss_orders)) := by
  intro groups
  induction groups with
  | nil =>
      intro st _ _
      have hfun : (fun p : String × Watch =>
          !(decide (∃ g ∈ ([] : List (Int × List String)), p.1 ∈ g.2) &&
            watchRemoved env a p.1 p.2)) = fun _ => true := funext fun p => by simp
      obtain ⟨ao, sl⟩ := st
      simp [checkTokens, hfun, List.filter_true]
  | cons g rest ih =>
      intro st hkeys hsound
      obtain ⟨t, oids⟩ := g
      obtain ⟨hmapnd, htok, hbnd, hsnd⟩ := hsound
      rw [List.map_cons, List.nodup_cons] at hmapnd
      obtain ⟨htnotin, hmapnd⟩ := hmapnd
      have ht : t ≠ 0 := htok _ (List.mem_cons_self _ _)
      have hoidsnd : oids.Nodup := hbnd _ (List.mem_cons_self _ _)
      have hsndhead : ∀ oid ∈ oids, ∃ w,
          (oid, w) ∈ st.stop_loss_orders ∧ w.instrument_token = t :=
        fun oid ho => hsnd _ (List.mem_cons_self _ _) oid ho
      have hsoundrest : GroupsSound rest st.stop_loss_orders :=
        ⟨hmapnd, fun g hg => htok g (List.mem_cons_of_mem _ hg),
         fun g hg => hbnd g (List.mem_cons_of_mem _ hg),
         fun g hg => hsnd g (List.mem_cons_of_mem _ hg)⟩
      have huniq : ∀ p ∈ st.stop_loss_orders, p.1 ∈ oids →
          p.2.instrument_token = t := by
        intro p hp hpo
        obtain ⟨w, hw, hwt⟩ := hsndhead p.1 hpo
        have : p.2 = w := by
          have h1 : (p.1, p.2) ∈ st.stop_loss_orders := by
            rwa [show (p.1, p.2) = p from rfl]
          exact value_unique hkeys h1 hw
        rw [this]
        exact hwt
      have hnotrest : ∀ p ∈ st.stop_loss_orders, p.1 ∈ oids →
          ∀ g2 ∈ rest, p.1 ∉ g2.2 := by
        intro p hp hpo g2 hg2 hpg2
        obtain ⟨w2, hw2, hwt2⟩ := hsoundrest.2.2.2 g2 hg2 p.1 hpg2
        have hpt := huniq p hp hpo
        have hpw : p.2 = w2 := by
          have h1 : (p.1, p.2) ∈ st.stop_loss_orders := by
            rwa [show (p.1, p.2) = p from rfl]
          exact value_unique hkeys h1 hw2
        rw [hpw] at hpt
        rw [hwt2] at hpt
        have hmem2 : g2.1 ∈ rest.map Prod.fst := List.mem_map_of_mem Prod.fst hg2
        rw [hpt] at hmem2
        exact htnotin hmem2
      have hnotoids : ∀ (oid : String) (g2 : Int × List String), g2 ∈ rest →
          oid ∈ g2.2 → oid ∉ oids := by
        intro oid g2 hg2 hpg2 hoid
        obtain ⟨w2, hw2, _⟩ := hsoundrest.2.2.2 g2 hg2 oid hpg2
        exact hnotrest (oid, w2) hw2 hoid g2 hg2 hpg2
      cases hc : env.get_current_price t a with
      | none =>
          have hstep : checkTokens env a ((t, oids) :: rest) st =
              ((checkTokens env a rest st).1,
               Event.priceLookup t a :: (checkTokens env a rest st).2) := by
            simp [checkTokens, hc]
          rw [hstep, ih st hkeys hsoundrest]
          have hstate : st.stop_loss_orders.filter
              (fun p => !(decide (∃ g ∈ rest, p.1 ∈ g.2) &&
                watchRemoved env a p.1 p.2)) =
              st.stop_loss_orders.filter
                (fun p => !(decide (∃ g ∈ (t, oids) :: rest, p.1 ∈ g.2) &&
                  watchRemoved env a p.1 p.2)) := by
            apply List.filter_congr
            intro p hp
            by_cases hpo : p.1 ∈ oids
            · have hwr : watchRemoved env a p.1 p.2 = false :=
                watchRemoved_of_price_none env a p (huniq p hp hpo ▸ hc)
              simp [hwr]
            · have hiff : (∃ g ∈ (t, oids) :: rest, p.1 ∈ g.2) ↔
                  (∃ g ∈ rest, p.1 ∈ g.2) := by
                constructor
                · rintro ⟨g2, hg2, hpg2⟩
                  rcases List.mem_cons.1 hg2 with rfl | hg2
                  · exact absurd hpg2 hpo
                  · exact ⟨g2, hg2, hpg2⟩
                · rintro ⟨g2, hg2, hpg2⟩
                  exact ⟨g2, List.mem_cons_of_mem _ hg2, hpg2⟩
              rw [decide_eq_decide.2 hiff]
          simp only [hstate, List.flatMap_cons, tokenEvents, hc, List.nil_append,
            List.singleton_append]
      | some c =>
          have hmemO : ∀ oid ∈ oids, ∃ w, (oid, w) ∈ st.stop_loss_orders :=
            fun oid ho => ⟨(hsndhead oid ho).choose, (hsndhead oid ho).choose_spec.1⟩
          have hA := checkOrdersForToken_spec env c oids st hoidsnd hkeys hmemO
          have hstep : checkTokens env a ((t, oids) :: rest) st =
              ((checkTokens env a rest (checkOrdersForToken env c oids st).1).1,
               Event.priceLookup t a ::
                 ((checkOrdersForToken env c oids st).2 ++
                   (checkTokens env a rest (checkOrdersForToken env c oids st).1).2)) := by
            simp [checkTokens, hc]
          rw [hstep, hA]
          have hkeys1 : ((st.stop_loss_orders.filter
              (fun p => !(decide (p.1 ∈ oids) && groupRemoves env c p))).map
                Prod.fst).Nodup := keysNodup_filter hkeys _
          have hmemkeep : ∀ (oid : String) (w : Watch) (g2 : Int × List String),
              g2 ∈ rest → oid ∈ g2.2 → (oid, w) ∈ st.stop_loss_orders →
              (oid, w) ∈ st.stop_loss_orders.filter
                (fun p => !(decide (p.1 ∈ oids) && groupRemoves env c p)) := by
            intro oid w g2 hg2 hpg2 hw
            refine List.mem_filter.2 ⟨hw, ?_⟩
            simp [hnotoids oid g2 hg2 hpg2]
          have hsound1 : GroupsSound rest (st.stop_loss_orders.filter
              (fun p => !(decide (p.1 ∈ oids) && groupRemoves env c p))) := by
            refine ⟨hmapnd, hsoundrest.2.1, hsoundrest.2.2.1, ?_⟩
            intro g2 hg2 oid hoid
            obtain ⟨w2, hw2, hwt2⟩ := hsoundrest.2.2.2 g2 hg2 oid hoid
            exact ⟨w2, hmemkeep oid w2 g2 hg2 hoid hw2, hwt2⟩
          have hih := ih
            (⟨st.active_orders,
              st.stop_loss_orders.filter
                (fun p => !(decide (p.1 ∈ oids) && groupRemoves env c p))⟩ : GlobalState)
            hkeys1 hsound1
          dsimp only
          rw [hih]
          have hstate : (st.stop_loss_orders.filter
              (fun p => !(decide (p.1 ∈ oids) && groupRemoves env c p))).filter
                (fun p => !(decide (∃ g ∈ rest, p.1 ∈ g.2) &&
                  watchRemoved env a p.1 p.2)) =
              st.stop_loss_orders.filter
                (fun p => !(decide (∃ g ∈ (t, oids) :: rest, p.1 ∈ g.2) &&
                  watchRemoved env a p.1 p.2)) := by
            rw [List.filter_filter]
            apply List.filter_congr
            intro p hp
            by_cases hpo : p.1 ∈ oids
            · have hwr : watchRemoved env a p.1 p.2 = groupRemoves env c p :=
                watchRemoved_eq_groupRemoves env a p c
                  (by rw [huniq p hp hpo]; exact ht) (huniq p hp hpo ▸ hc)
              have hnr : ¬(∃ g ∈ rest, p.1 ∈ g.2) := by
                rintro ⟨g2, hg2, hpg2⟩
                exact hnotrest p hp hpo g2 hg2 hpg2
              have hyc : (∃ g ∈ (t, oids) :: rest, p.1 ∈ g.2) :=
                ⟨(t, oids), List.mem_cons_self _ _, hpo⟩
              simp [hnr, hyc, hpo, hwr]
            · have hiff : (∃ g ∈ (t, oids) :: rest, p.1 ∈ g.2) ↔
                  (∃ g ∈ rest, p.1 ∈ g.2) := by
                constructor
                · rintro ⟨g2, hg2, hpg2⟩
                  rcases List.mem_cons.1 hg2 with rfl | hg2
                  · exact absurd hpg2 hpo
                  · exact ⟨g2, hg2, hpg2⟩
                · rintro ⟨g2, hg2, hpg2⟩
                  exact ⟨g2, List.mem_cons_of_mem _ hg2, hpg2⟩
              have hdec : decide (∃ g ∈ (t, oids) :: rest, p.1 ∈ g.2) =
                  decide (∃ g ∈ rest, p.1 ∈ g.2) := decide_eq_decide.2 hiff
              rw [hdec]
              simp [hpo]
          have hteq : ∀ g2 ∈ rest,
              tokenEvents env a (st.stop_loss_orders.filter
                (fun p => !(decide (p.1 ∈ oids) && groupRemoves env c p))) g2 =
              tokenEvents env a st.stop_loss_orders g2 := by
            intro g2 hg2
            unfold tokenEvents
            cases hc2 : env.get_current_price g2.1 a with
            | none => rfl
            | some c2 =>
                congr 1
                apply List.filterMap_congr
                intro oid hoid
                unfold watchAttemptEvent
                obtain ⟨w2, hw2, _⟩ := hsoundrest.2.2.2 g2 hg2 oid hoid
                have hg1 : dictGet st.stop_loss_orders oid = some w2 :=
                  dictGet_of_mem hkeys hw2
                have hg2f : dictGet (st.stop_loss_orders.filter
                    (fun p => !(decide (p.1 ∈ oids) && groupRemoves env c p))) oid =
                    some w2 := by
                  rw [dictGet_filter hkeys, hg1]
                  simp [hnotoids oid g2 hg2 hoid]
                rw [hg1, hg2f]
          have hflat : rest.flatMap (tokenEvents env a (st.stop_loss_orders.filter
              (fun p => !(decide (p.1 ∈ oids) && groupRemoves env c p)))) =
              rest.flatMap (tokenEvents env a st.stop_loss_orders) :=
            List.flatMap_congr hteq
          have hhead : tokenEvents env a st.stop_loss_orders (t, oids) =
              Event.priceLookup t a ::
                oids.filterMap (watchAttemptEvent env st.stop_loss_orders c) := by
            simp [tokenEvents, hc]
          simp only [hstate, hflat, List.flatMap_cons, hhead, List.cons_append,
            List.append_assoc]

/-! ## One full pass (`check_stop_losses`) -/

theorem check_stop_losses_spec (env : MonitorEnv) (st : GlobalState)
    (hkeys : (st.stop_loss_orders.map Prod.fst).Nodup)
    (oid0 : String) (w0 : Watch) (tl : List (String × Watch))
    (hsl : st.stop_loss_orders = (oid0, w0) :: tl)
    (ha : w0.access_token ≠ "") :
    check_stop_losses env st =
      ({ active_orders := st.active_orders,
         stop_loss_orders := st.stop_loss_orders.filter
           (fun p => !watchRemoved env w0.access_token p.1 p.2) },
       passEvents env w0.access_token st.stop_loss_orders) := by
  have hgs := groupsSpec_groupByToken st.stop_loss_orders hkeys
  obtain ⟨h1, h2, h3, h4, h5⟩ := hgs
  have hsound : GroupsSound (groupByToken st.stop_loss_orders) st.stop_loss_orders :=
    ⟨h1, h2, h3, h4⟩
  have hB := checkTokens_spec env w0.access_token (groupByToken st.stop_loss_orders)
    st hkeys hsound
  have hstep : check_stop_losses env st =
      checkTokens env w0.access_token (groupByToken st.stop_loss_orders) st := by
    unfold check_stop_losses
    rw [hsl]
    simp [ha, ← hsl]
  rw [hstep, hB]
  have hstate : st.stop_loss_orders.filter
      (fun p => !(decide (∃ g ∈ groupByToken st.stop_loss_orders, p.1 ∈ g.2) &&
        watchRemoved env w0.access_token p.1 p.2)) =
      st.stop_loss_orders.filter
        (fun p => !watchRemoved env w0.access_token p.1 p.2) := by
    apply List.filter_congr
    intro p hp
    by_cases htp : p.2.instrument_token = 0
    · have hwr := watchRemoved_of_token_zero env w0.access_token p htp
      simp [hwr]
    · obtain ⟨g, hg, hgt, hpg⟩ := h5 p hp htp
      have hex : ∃ g ∈ groupByToken st.stop_loss_orders, p.1 ∈ g.2 := ⟨g, hg, hpg⟩
      simp [hex]
  rw [hstate]
  rfl

/-! ## Event counting -/

theorem watchAttemptEvent_eq_some {env : MonitorEnv} {sl : List (String × Watch)}
    {c : ℚ} {oid : String} {e : Event}
    (h : watchAttemptEvent env sl c oid = some e) :
    ∃ w, dictGet sl oid = some w ∧ slTriggered w.stop_loss_price c = true ∧
      e = Event.liqAttempt oid
        (env.place_order oid (stopLossPayload w) w.access_token) c := by
  unfold watchAttemptEvent at h
  cases hget : dictGet sl oid with
  | none => rw [hget] at h; exact absurd h (by simp)
  | some w =>
      rw [hget] at h
      have h2 : (if slTriggered w.stop_loss_price c = true then
          some (Event.liqAttempt oid
            (env.place_order oid (stopLossPayload w) w.access_token) c)
          else none) = some e := h
      by_cases htr : slTriggered w.stop_loss_price c = true
      · rw [if_pos htr] at h2
        exact ⟨w, rfl, htr, (Option.some.inj h2).symm⟩
      · rw [if_neg htr] at h2
        exact absurd h2 (by simp)

theorem watchOutcome_eq_some {env : MonitorEnv} {a : String} {oid : String}
    {w : Watch} {c : ℚ} {out : Option PlaceResp}
    (h : watchOutcome env a oid w = some (c, out)) :
    w.instrument_token ≠ 0 ∧
    env.get_current_price w.instrument_token a = some c ∧
    slTriggered w.stop_loss_price c = true ∧
    out = env.place_order oid (stopLossPayload w) w.access_token := by
  unfold watchOutcome at h
  by_cases ht : w.instrument_token = 0
  · rw [if_pos ht] at h
    exact absurd h (by simp)
  · rw [if_neg ht] at h
    cases hc : env.get_current_price w.instrument_token a with
    | none => rw [hc] at h; exact absurd h (by simp)
    | some c2 =>
        rw [hc] at h
        have h2 : (if slTriggered w.stop_loss_price c2 = true then
            some (c2, env.place_order oid (stopLossPayload w) w.access_token)
            else none) = some (c, out) := h
        by_cases htr : slTriggered w.stop_loss_price c2 = true
        · rw [if_pos htr] at h2
          have hpair := Option.some.inj h2
          have he1 : c2 = c := congrArg Prod.fst hpair
          have he2 : env.place_order oid (stopLossPayload w) w.access_token = out :=
            congrArg Prod.snd hpair
          have htr2 : slTriggered w.stop_loss_price c = true := by
            rw [← he1]
            exact htr
          exact ⟨ht, by rw [he1], htr2, he2.symm⟩
        · rw [if_neg htr] at h2
          exact absurd h2 (by simp)

theorem liqAttemptCount_append (l1 l2 : List Event) (oid : String) :
    liqAttemptCount (l1 ++ l2) oid = liqAttemptCount l1 oid + liqAttemptCount l2 oid := by
  simp [liqAttemptCount, List.filter_append]

theorem liqCompletedCount_append (l1 l2 : List Event) (oid : String) :
    liqCompletedCount (l1 ++ l2) oid =
      liqCompletedCount l1 oid + liqCompletedCount l2 oid := by
  simp [liqCompletedCount, List.filter_append]

theorem liqAttemptCount_cons_lookup (t : Int) (a : String) (evs : List Event)
    (oid : String) :
    liqAttemptCount (Event.priceLookup t a :: evs) oid = liqAttemptCount evs oid := by
  simp [liqAttemptCount, List.filter_cons, isLiqAttemptFor]

theorem liqCompletedCount_cons_lookup (t : Int) (a : String) (evs : List Event)
    (oid : String) :
    liqCompletedCount (Event.priceLookup t a :: evs) oid =
      liqCompletedCount evs oid := by
  simp [liqCompletedCount, List.filter_cons, isLiqCompletedFor]

theorem liqCompletedCount_le_attempt (evs : List Event) (oid : String) :
    liqCompletedCount evs oid ≤ liqAttemptCount evs oid := by
  induction evs with
  | nil => simp [liqCompletedCount, liqAttemptCount]
  | cons e rest ih =>
      unfold liqCompletedCount liqAttemptCount at *
      rw [List.filter_cons, List.filter_cons]
      by_cases hc : isLiqCompletedFor oid e = true
      · have ha : isLiqAttemptFor oid e = true := by
          unfold isLiqCompletedFor at hc
          unfold isLiqAttemptFor
          cases e with
          | priceLookup t a2 => exact absurd hc (by simp)
          | liqAttempt oid2 out c2 =>
              cases out with
              | none => exact absurd hc (by simp)
              | some r => exact hc
        rw [if_pos hc, if_pos ha]
        simpa using ih
      · rw [if_neg hc]
        by_cases hat : isLiqAttemptFor oid e = true
        · rw [if_pos hat]
          calc _ ≤ (List.filter (isLiqAttemptFor oid) rest).length := ih
            _ ≤ _ := by simp
        · rw [if_neg hat]
          exact ih

theorem liqAttemptCount_filterMap_zero (env : MonitorEnv) (sl : List (String × Watch))
    (c : ℚ) (oid : String) (oids : List String) (h : oid ∉ oids) :
    liqAttemptCount (oids.filterMap (watchAttemptEvent env sl c)) oid = 0 := by
  induction oids with
  | nil => simp [liqAttemptCount]
  | cons o rest ih =>
      rw [List.mem_cons, not_or] at h
      rw [List.filterMap_cons]
      cases hw : watchAttemptEvent env sl c o with
      | none => exact ih h.2
      | some e =>
          obtain ⟨w, _, _, he⟩ := watchAttemptEvent_eq_some hw
          unfold liqAttemptCount
          rw [List.filter_cons]
          have : isLiqAttemptFor oid e = false := by
            rw [he]
            unfold isLiqAttemptFor
            simp [Ne.symm h.1]
          rw [this]
          simp only [Bool.false_eq_true, if_false]
          exact ih h.2

theorem liqAttemptCount_filterMap_le_one (env : MonitorEnv)
    (sl : List (String × Watch)) (c : ℚ) (oid : String) (oids : List String)
    (hnd : oids.Nodup) :
    liqAttemptCount (oids.filterMap (watchAttemptEvent env sl c)) oid ≤ 1 := by
  induction oids with
  | nil => simp [liqAttemptCount]
  | cons o rest ih =>
      rw [List.nodup_cons] at hnd
      rw [List.filterMap_cons]
      cases hw : watchAttemptEvent env sl c o with
      | none => exact ih hnd.2
      | some e =>
          obtain ⟨w, _, _, he⟩ := watchAttemptEvent_eq_some hw
          unfold liqAttemptCount
          rw [List.filter_cons]
          by_cases ho : o = oid
          · have hmatch : isLiqAttemptFor oid e = true := by
              rw [he]
              unfold isLiqAttemptFor
              simp [ho]
            rw [hmatch]
            have hzero := liqAttemptCount_filterMap_zero env sl c oid rest (ho ▸ hnd.1)
            unfold liqAttemptCount at hzero
            simp [hzero]
          · have hmatch : isLiqAttemptFor oid e = false := by
              rw [he]
              unfold isLiqAttemptFor
              simp [ho]
            rw [hmatch]
            simp only [Bool.false_eq_true, if_false]
            exact ih hnd.2

theorem count_ne_zero_iff_exists (f : Event → Bool) (evs : List Event) :
    (evs.filter f).length ≠ 0 ↔ ∃ e ∈ evs, f e = true := by
  constructor
  · intro h
    have hne : evs.filter f ≠ [] := fun he => h (he ▸ rfl)
    obtain ⟨e, he⟩ := List.exists_mem_of_ne_nil _ hne
    obtain ⟨h1, h2⟩ := List.mem_filter.1 he
    exact ⟨e, h1, h2⟩
  · rintro ⟨e, he, hf⟩
    have : e ∈ evs.filter f := List.mem_filter.2 ⟨he, hf⟩
    have := List.ne_nil_of_mem this
    intro hlen
    rw [List.length_eq_zero] at hlen
    exact this hlen

theorem passEvents_attempt_mem (env : MonitorEnv) (a : String)
    (sl : List (String × Watch)) (hkeys : (sl.map Prod.fst).Nodup)
    (oid : String) (out : Option PlaceResp) (c : ℚ) :
    Event.liqAttempt oid out c ∈ passEvents env a sl ↔
      ∃ w, (oid, w) ∈ sl ∧ watchOutcome env a oid w = some (c, out) := by
  obtain ⟨h1, h2, h3, h4, h5⟩ := groupsSpec_groupByToken sl hkeys
  unfold passEvents
  rw [List.mem_flatMap]
  constructor
  · rintro ⟨g, hg, he⟩
    unfold tokenEvents at he
    rcases List.mem_cons.1 he with he | he
    · exact absurd he (by simp)
    · cases hc : env.get_current_price g.1 a with
      | none =>
          rw [hc] at he
          exact absurd he (by simp)
      | some c2 =>
          rw [hc] at he
          obtain ⟨oid2, hoid2, hw⟩ := List.mem_filterMap.1 he
          obtain ⟨w, hget, htr, heq⟩ := watchAttemptEvent_eq_some hw
          injection heq with e1 e2 e3
          subst e1
          subst e3
          have hmem : (oid, w) ∈ sl := mem_of_dictGet_eq_some hget
          obtain ⟨w3, hw3, hwt3⟩ := h4 g hg oid hoid2
          have hww3 : w = w3 := value_unique hkeys hmem hw3
          refine ⟨w, hmem, ?_⟩
          have hwt : w.instrument_token = g.1 := by
            rw [hww3]
            exact hwt3
          unfold watchOutcome
          rw [hwt, if_neg (h2 g hg), hc]
          have hred : (match some c with
              | none => none
              | some c2 =>
                  if slTriggered w.stop_loss_price c2 = true then
                    some (c2, env.place_order oid (stopLossPayload w) w.access_token)
                  else none) =
              (if slTriggered w.stop_loss_price c = true then
                some (c, env.place_order oid (stopLossPayload w) w.access_token)
              else none) := rfl
          rw [hred, if_pos htr, e2]
  · rintro ⟨w, hw, hout⟩
    obtain ⟨ht, hc, htr, hplace⟩ := watchOutcome_eq_some hout
    obtain ⟨g, hg, hgt, hpg⟩ := h5 (oid, w) hw ht
    refine ⟨g, hg, ?_⟩
    unfold tokenEvents
    apply List.mem_cons_of_mem
    have hgc : env.get_current_price g.1 a = some c := by
      rw [hgt]
      exact hc
    rw [hgc]
    refine List.mem_filterMap.2 ⟨oid, hpg, ?_⟩
    unfold watchAttemptEvent
    rw [dictGet_of_mem hkeys hw]
    have hred : (match some ((oid, w).2) with
        | none => none
        | some w2 =>
            if slTriggered w2.stop_loss_price c = true then
              some (Event.liqAttempt oid
                (env.place_order oid (stopLossPayload w2) w2.access_token) c)
            else none) =
        (if slTriggered w.stop_loss_price c = true then
          some (Event.liqAttempt oid
            (env.place_order oid (stopLossPayload w) w.access_token) c)
        else none) := rfl
    rw [hred, if_pos htr, ← hplace]

theorem attemptCount_tokenEvents_zero (env : MonitorEnv) (a : String)
    (sl : List (String × Watch)) (oid : String) (g : Int × List String)
    (h : oid ∉ g.2) :
    liqAttemptCount (tokenEvents env a sl g) oid = 0 := by
  unfold tokenEvents
  rw [liqAttemptCount_cons_lookup]
  cases hc : env.get_current_price g.1 a with
  | none => simp [liqAttemptCount]
  | some c => exact liqAttemptCount_filterMap_zero env sl c oid g.2 h

theorem attemptCount_tokenEvents_le_one (env : MonitorEnv) (a : String)
    (sl : List (String × Watch)) (oid : String) (g : Int × List String)
    (hnd : g.2.Nodup) :
    liqAttemptCount (tokenEvents env a sl g) oid ≤ 1 := by
  unfold tokenEvents
  rw [liqAttemptCount_cons_lookup]
  cases hc : env.get_current_price g.1 a with
  | none => simp [liqAttemptCount]
  | some c => exact liqAttemptCount_filterMap_le_one env sl c oid g.2 hnd

theorem attemptCount_flatMap_zero (env : MonitorEnv) (a : String)
    (sl : List (String × Watch)) (oid : String) :
    ∀ (groups : List (Int × List String)), (∀ g ∈ groups, oid ∉ g.2) →
      liqAttemptCount (groups.flatMap (tokenEvents env a sl)) oid = 0 := by
  intro groups
  induction groups with
  | nil => intro _; simp [liqAttemptCount]
  | cons g rest ih =>
      intro h
      rw [List.flatMap_cons, liqAttemptCount_append,
        attemptCount_tokenEvents_zero env a sl oid g (h g (List.mem_cons_self _ _)),
        ih (fun g2 hg2 => h g2 (List.mem_cons_of_mem _ hg2))]

theorem attemptCount_flatMap_le_one (env : MonitorEnv) (a : String)
    (sl : List (String × Watch)) (hkeys : (sl.map Prod.fst).Nodup) (oid : String) :
    ∀ (groups : List (Int × List String)), GroupsSound groups sl →
      liqAttemptCount (groups.flatMap (tokenEvents env a sl)) oid ≤ 1 := by
  intro groups
  induction groups with
  | nil => intro _; simp [liqAttemptCount]
  | cons g rest ih =>
      intro hsound
      obtain ⟨hmapnd, htok, hbnd, hsnd⟩ := hsound
      rw [List.map_cons, List.nodup_cons] at hmapnd
      have hsoundrest : GroupsSound rest sl :=
        ⟨hmapnd.2, fun g2 hg2 => htok g2 (List.mem_cons_of_mem _ hg2),
         fun g2 hg2 => hbnd g2 (List.mem_cons_of_mem _ hg2),
         fun g2 hg2 => hsnd g2 (List.mem_cons_of_mem _ hg2)⟩
      rw [List.flatMap_cons, liqAttemptCount_append]
      by_cases hoid : oid ∈ g.2
      · have hrest : ∀ g2 ∈ rest, oid ∉ g2.2 := by
          intro g2 hg2 hoid2
          obtain ⟨w1, hw1, hwt1⟩ := hsnd g (List.mem_cons_self _ _) oid hoid
          obtain ⟨w2, hw2, hwt2⟩ := hsoundrest.2.2.2 g2 hg2 oid hoid2
          have hww : w1 = w2 := value_unique hkeys hw1 hw2
          rw [hww, hwt2] at hwt1
          exact hmapnd.1 (hwt1 ▸ List.mem_map_of_mem Prod.fst hg2)
        have h0 := attemptCount_flatMap_zero env a sl oid rest hrest
        have h1 := attemptCount_tokenEvents_le_one env a sl oid g
          (hbnd g (List.mem_cons_self _ _))
        omega
      · have h0 := attemptCount_tokenEvents_zero env a sl oid g hoid
        have h1 := ih hsoundrest
        omega

theorem lookupTokens_filterMap_attempts (env : MonitorEnv)
    (sl : List (String × Watch)) (c : ℚ) (oids : List String) :
    lookupTokens (oids.filterMap (watchAttemptEvent env sl c)) = [] := by
  unfold lookupTokens
  rw [List.filterMap_eq_nil_iff]
  intro e he
  obtain ⟨oid, _, hw⟩ := List.mem_filterMap.1 he
  obtain ⟨w, _, _, heq⟩ := watchAttemptEvent_eq_some hw
  rw [heq]

theorem lookupTokens_flatMap (env : MonitorEnv) (a : String)
    (sl : List (String × Watch)) :
    ∀ (groups : List (Int × List String)),
      lookupTokens (groups.flatMap (tokenEvents env a sl)) = groups.map Prod.fst := by
  intro groups
  induction groups with
  | nil => simp [lookupTokens]
  | cons g rest ih =>
      rw [List.flatMap_cons, List.map_cons]
      have happ : lookupTokens (tokenEvents env a sl g ++
          rest.flatMap (tokenEvents env a sl)) =
          lookupTokens (tokenEvents env a sl g) ++
            lookupTokens (rest.flatMap (tokenEvents env a sl)) := by
        unfold lookupTokens
        rw [List.filterMap_append]
      rw [happ, ih]
      have hhead : lookupTokens (tokenEvents env a sl g) = [g.1] := by
        unfold tokenEvents
        unfold lookupTokens
        rw [List.filterMap_cons]
        cases hc : env.get_current_price g.1 a with
        | none => simp
        | some c =>
            have := lookupTokens_filterMap_attempts env sl c g.2
            unfold lookupTokens at this
            simp [this]
      simp [hhead]

theorem lookup_cred_flatMap (env : MonitorEnv) (a : String)
    (sl : List (String × Watch)) (groups : List (Int × List String))
    (t : Int) (a2 : String)
    (h : Event.priceLookup t a2 ∈ groups.flatMap (tokenEvents env a sl)) :
    a2 = a := by
  obtain ⟨g, _, he⟩ := List.mem_flatMap.1 h
  unfold tokenEvents at he
  rcases List.mem_cons.1 he with he | he
  · exact (Event.priceLookup.inj he).2
  · cases hc : env.get_current_price g.1 a with
    | none =>
        rw [hc] at he
        exact absurd he (by simp)
    | some c =>
        rw [hc] at he
        obtain ⟨oid, _, hw⟩ := List.mem_filterMap.1 he
        obtain ⟨w, _, _, heq⟩ := watchAttemptEvent_eq_some hw
        exact absurd heq (by simp)

theorem completed_event_shape {oid : String} {e : Event}
    (h : isLiqCompletedFor oid e = true) :
    ∃ r c, e = Event.liqAttempt oid (some r) c := by
  cases e with
  | priceLookup t a2 => exact absurd h (by simp [isLiqCompletedFor])
  | liqAttempt oid2 out c =>
      cases out with
      | none => exact absurd h (by simp [isLiqCompletedFor])
      | some r =>
          unfold isLiqCompletedFor at h
          have : oid2 = oid := eq_of_beq h
          exact ⟨r, c, by rw [this]⟩

theorem passEvents_completed_iff (env : MonitorEnv) (a : String)
    (sl : List (String × Watch)) (hkeys : (sl.map Prod.fst).Nodup)
    (oid : String) (w : Watch) (hw : (oid, w) ∈ sl) :
    liqCompletedCount (passEvents env a sl) oid ≠ 0 ↔
      watchRemoved env a oid w = true := by
  unfold liqCompletedCount
  rw [count_ne_zero_iff_exists]
  constructor
  · rintro ⟨e, he, hf⟩
    obtain ⟨r, c, rfl⟩ := completed_event_shape hf
    rw [passEvents_attempt_mem env a sl hkeys oid (some r) c] at he
    obtain ⟨w2, hw2, hout⟩ := he
    have hww : w2 = w := value_unique hkeys hw2 hw
    subst hww
    unfold watchRemoved
    rw [hout]
  · intro hwr
    unfold watchRemoved at hwr
    cases hwo : watchOutcome env a oid w with
    | none => rw [hwo] at hwr; exact absurd hwr (by simp)
    | some pr =>
        obtain ⟨c, out⟩ := pr
        cases out with
        | none => rw [hwo] at hwr; exact absurd hwr (by simp)
        | some r =>
            have hmem : Event.liqAttempt oid (some r) c ∈ passEvents env a sl :=
              (passEvents_attempt_mem env a sl hkeys oid (some r) c).2 ⟨w, hw, hwo⟩
            exact ⟨_, hmem, by simp [isLiqCompletedFor]⟩

/-- Everything later claims need about one `check_stop_losses` pass, valid
in every branch (empty store, missing credential, and the regular path):
keys stay distinct, `active_orders` is untouched, a watch survives exactly
when no completed liquidation call was made for it, at most one
liquidation attempt per watch per pass, and every attempt belongs to a
stored watch whose trigger fired at the observed price. -/
theorem check_pass_facts (env : MonitorEnv) (st : GlobalState)
    (hkeys : (st.stop_loss_orders.map Prod.fst).Nodup) :
    (((check_stop_losses env st).1.stop_loss_orders.map Prod.fst).Nodup) ∧
    ((check_stop_losses env st).1.active_orders = st.active_orders) ∧
    (∀ oid w, ((oid, w) ∈ (check_stop_losses env st).1.stop_loss_orders ↔
      ((oid, w) ∈ st.stop_loss_orders ∧
        liqCompletedCount (check_stop_losses env st).2 oid = 0))) ∧
    (∀ oid, liqAttemptCount (check_stop_losses env st).2 oid ≤ 1) ∧
    (∀ oid out c, Event.liqAttempt oid out c ∈ (check_stop_losses env st).2 →
      ∃ w, (oid, w) ∈ st.stop_loss_orders ∧ slTriggered w.stop_loss_price c = true) := by
  have htrivial : check_stop_losses env st = (st, []) →
      (((check_stop_losses env st).1.stop_loss_orders.map Prod.fst).Nodup) ∧
      ((check_stop_losses env st).1.active_orders = st.active_orders) ∧
      (∀ oid w, ((oid, w) ∈ (check_stop_losses env st).1.stop_loss_orders ↔
        ((oid, w) ∈ st.stop_loss_orders ∧
          liqCompletedCount (check_stop_losses env st).2 oid = 0))) ∧
      (∀ oid, liqAttemptCount (check_stop_losses env st).2 oid ≤ 1) ∧
      (∀ oid out c, Event.liqAttempt oid out c ∈ (check_stop_losses env st).2 →
        ∃ w, (oid, w) ∈ st.stop_loss_orders ∧
          slTriggered w.stop_loss_price c = true) := by
    intro hch
    rw [hch]
    refine ⟨hkeys, rfl, ?_, ?_, ?_⟩
    · intro oid w
      simp [liqCompletedCount]
    · intro oid
      simp [liqAttemptCount]
    · intro oid out c hmem
      exact absurd hmem (by simp)
  by_cases hemp : st.stop_loss_orders = []
  · apply htrivial
    unfold check_stop_losses
    rw [hemp]
  · obtain ⟨p0, tl, hsl⟩ : ∃ p0 tl, st.stop_loss_orders = p0 :: tl := by
      cases hl : st.stop_loss_orders with
      | nil => exact absurd hl hemp
      | cons p0 tl => exact ⟨p0, tl, rfl⟩
    obtain ⟨oid0, w0⟩ := p0
    by_cases ha : w0.access_token = ""
    · apply htrivial
      unfold check_stop_losses
      rw [hsl]
      simp [ha]
    · have hspec := check_stop_losses_spec env st hkeys oid0 w0 tl hsl ha
      obtain ⟨g1, g2, g3, g4, g5⟩ :=
        groupsSpec_groupByToken st.stop_loss_orders hkeys
      have hsound : GroupsSound (groupByToken st.stop_loss_orders)
          st.stop_loss_orders := ⟨g1, g2, g3, g4⟩
      rw [hspec]
      refine ⟨keysNodup_filter hkeys _, rfl, ?_, ?_, ?_⟩
      · intro oid w
        rw [List.mem_filter]
        constructor
        · rintro ⟨hmem, hpred⟩
          refine ⟨hmem, ?_⟩
          rw [Bool.not_eq_true'] at hpred
          by_contra hcnt
          have := (passEvents_completed_iff env w0.access_token
            st.stop_loss_orders hkeys oid w hmem).1 hcnt
          rw [hpred] at this
          exact Bool.false_ne_true this
        · rintro ⟨hmem, hcnt⟩
          refine ⟨hmem, ?_⟩
          rw [Bool.not_eq_true']
          cases hb : watchRemoved env w0.access_token oid w with
          | false => rfl
          | true =>
              exact absurd hcnt ((passEvents_completed_iff env w0.access_token
                st.stop_loss_orders hkeys oid w hmem).2 hb)
      · intro oid
        exact attemptCount_flatMap_le_one env w0.access_token
          st.stop_loss_orders hkeys oid _ hsound
      · intro oid out c hmem
        rw [passEvents_attempt_mem env w0.access_token
          st.stop_loss_orders hkeys oid out c] at hmem
        obtain ⟨w, hw, hout⟩ := hmem
        exact ⟨w, hw, (watchOutcome_eq_some hout).2.2.1⟩

/-! ## Several consecutive passes (`runPasses`) -/

theorem runPasses_no_watch (envs : List MonitorEnv) :
    ∀ (st : GlobalState), ((st.stop_loss_orders.map Prod.fst).Nodup) →
      ∀ oid, (∀ w, (oid, w) ∉ st.stop_loss_orders) →
        liqCompletedCount (runPasses envs st).2 oid = 0 ∧
        (∀ w, (oid, w) ∉ (runPasses envs st).1.stop_loss_orders) := by
  induction envs with
  | nil => intro st _ oid hno; exact ⟨rfl, hno⟩
  | cons env rest ih =>
      intro st hkeys oid hno
      obtain ⟨f1, _, f3, f4, f5⟩ := check_pass_facts env st hkeys
      have hc1 : liqCompletedCount (check_stop_losses env st).2 oid = 0 := by
        by_contra hcnt
        have hcnt2 : ((check_stop_losses env st).2.filter
            (isLiqCompletedFor oid)).length ≠ 0 := hcnt
        rw [count_ne_zero_iff_exists] at hcnt2
        obtain ⟨e, he, hf⟩ := hcnt2
        obtain ⟨r, c, rfl⟩ := completed_event_shape hf
        obtain ⟨w, hw, _⟩ := f5 oid (some r) c he
        exact hno w hw
      have hno1 : ∀ w, (oid, w) ∉ (check_stop_losses env st).1.stop_loss_orders := by
        intro w hw
        exact hno w ((f3 oid w).1 hw).1
      have hrest := ih (check_stop_losses env st).1 f1 oid hno1
      constructor
      · show liqCompletedCount ((check_stop_losses env st).2 ++
          (runPasses rest (check_stop_losses env st).1).2) oid = 0
        rw [liqCompletedCount_append, hc1, hrest.1]
      · exact hrest.2

/-- Everything later claims need about a whole run of monitor passes
(between which nothing else touches the store). -/
theorem runPasses_facts (envs : List MonitorEnv) :
    ∀ (st : GlobalState), ((st.stop_loss_orders.map Prod.fst).Nodup) →
      (((runPasses envs st).1.stop_loss_orders.map Prod.fst).Nodup) ∧
      ((runPasses envs st).1.active_orders = st.active_orders) ∧
      (∀ oid w, ((oid, w) ∈ (runPasses envs st).1.stop_loss_orders ↔
        ((oid, w) ∈ st.stop_loss_orders ∧
          liqCompletedCount (runPasses envs st).2 oid = 0))) ∧
      (∀ oid, liqCompletedCount (runPasses envs st).2 oid ≤ 1) ∧
      (∀ oid out c, Event.liqAttempt oid out c ∈ (runPasses envs st).2 →
        ∃ w, (oid, w) ∈ st.stop_loss_orders ∧
          slTriggered w.stop_loss_price c = true) := by
  induction envs with
  | nil =>
      intro st hkeys
      refine ⟨hkeys, rfl, ?_, ?_, ?_⟩
      · intro oid w
        simp [runPasses, liqCompletedCount]
      · intro oid
        simp [runPasses, liqCompletedCount]
      · intro oid out c hmem
        exact absurd hmem (by simp [runPasses])
  | cons env rest ih =>
      intro st hkeys
      obtain ⟨f1, f2, f3, f4, f5⟩ := check_pass_facts env st hkeys
      obtain ⟨r1, r2, r3, r4, r5⟩ := ih (check_stop_losses env st).1 f1
      have hsplit : runPasses (env :: rest) st =
          ((runPasses rest (check_stop_losses env st).1).1,
           (check_stop_losses env st).2 ++
             (runPasses rest (check_stop_losses env st).1).2) := rfl
      rw [hsplit]
      refine ⟨r1, by rw [r2, f2], ?_, ?_, ?_⟩
      · intro oid w
        rw [liqCompletedCount_append]
        constructor
        · intro hmem
          obtain ⟨hmem1, hcR⟩ := (r3 oid w).1 hmem
          obtain ⟨hmem0, hc1⟩ := (f3 oid w).1 hmem1
          exact ⟨hmem0, by omega⟩
        · rintro ⟨hmem0, hsum⟩
          have hc1 : liqCompletedCount (check_stop_losses env st).2 oid = 0 := by
            omega
          have hcR : liqCompletedCount
              (runPasses rest (check_stop_losses env st).1).2 oid = 0 := by
            omega
          exact (r3 oid w).2 ⟨(f3 oid w).2 ⟨hmem0, hc1⟩, hcR⟩
      · intro oid
        rw [liqCompletedCount_append]
        have hc1le : liqCompletedCount (check_stop_losses env st).2 oid ≤ 1 :=
          le_trans (liqCompletedCount_le_attempt _ _) (f4 oid)
        by_cases hz : liqCompletedCount (check_stop_losses env st).2 oid = 0
        · have := r4 oid
          omega
        · have hno1 : ∀ w, (oid, w) ∉ (check_stop_losses env st).1.stop_loss_orders := by
            intro w hw
            exact hz ((f3 oid w).1 hw).2
          have := (runPasses_no_watch rest (check_stop_losses env st).1 f1 oid hno1).1
          omega
      · intro oid out c hmem
        rcases List.mem_append.1 hmem with hmem | hmem
        · exact f5 oid out c hmem
        · obtain ⟨w, hw, htr⟩ := r5 oid out c hmem
          exact ⟨w, ((f3 oid w).1 hw).1, htr⟩

/-! ## Dictionary insertion lookups -/

theorem dictGet_append_of_none {κ α : Type} [DecidableEq κ]
    {d : List (κ × α)} {k : κ} (h : dictGet d k = none) (l2 : List (κ × α)) :
    dictGet (d ++ l2) k = dictGet l2 k := by
  induction d with
  | nil => rfl
  | cons p rest ih =>
      by_cases hp : p.1 = k
      · rw [dictGet, if_pos hp] at h
        exact absurd h (by simp)
      · rw [dictGet, if_neg hp] at h
        rw [List.cons_append, dictGet, if_neg hp]
        exact ih h

theorem dictGet_map_overwrite_self {κ α : Type} [DecidableEq κ]
    (d : List (κ × α)) (k : κ) (v : α) (hs : (dictGet d k).isSome) :
    dictGet (d.map (fun p => if p.1 = k then (k, v) else p)) k = some v := by
  induction d with
  | nil => simp [dictGet] at hs
  | cons p rest ih =>
      rw [List.map_cons]
      by_cases hp : p.1 = k
      · rw [if_pos hp, dictGet, if_pos rfl]
      · rw [if_neg hp, dictGet, if_neg hp]
        rw [dictGet, if_neg hp] at hs
        exact ih hs

theorem dictGet_map_overwrite_ne {κ α : Type} [DecidableEq κ]
    (d : List (κ × α)) (k : κ) (v : α) (k2 : κ) (h : k2 ≠ k) :
    dictGet (d.map (fun p => if p.1 = k then (k, v) else p)) k2 = dictGet d k2 := by
  induction d with
  | nil => rfl
  | cons p rest ih =>
      rw [List.map_cons]
      by_cases hp : p.1 = k
      · rw [if_pos hp, dictGet, if_neg (fun he => h he.symm), dictGet,
          if_neg (fun he => h (hp.symm.trans he).symm)]
        exact ih
      · rw [if_neg hp, dictGet, dictGet]
        by_cases hp2 : p.1 = k2
        · rw [if_pos hp2, if_pos hp2]
        · rw [if_neg hp2, if_neg hp2]
          exact ih

theorem dictGet_append_single_ne {κ α : Type} [DecidableEq κ]
    (d : List (κ × α)) (k : κ) (v : α) (k2 : κ) (h : k2 ≠ k) :
    dictGet (d ++ [(k, v)]) k2 = dictGet d k2 := by
  induction d with
  | nil =>
      simp only [List.nil_append, dictGet]
      rw [if_neg (show ¬(k = k2) from fun he => h he.symm)]
  | cons p rest ih =>
      simp only [List.cons_append, dictGet]
      by_cases hp : p.1 = k2
      · rw [if_pos hp, if_pos hp]
      · rw [if_neg hp, if_neg hp]
        exact ih

theorem dictGet_dictInsert_self {κ α : Type} [DecidableEq κ]
    (d : List (κ × α)) (k : κ) (v : α) :
    dictGet (dictInsert d k v) k = some v := by
  unfold dictInsert
  by_cases hs : (dictGet d k).isSome
  · rw [if_pos hs]
    exact dictGet_map_overwrite_self d k v hs
  · rw [if_neg hs]
    have hn : dictGet d k = none := Option.not_isSome_iff_eq_none.1 hs
    rw [dictGet_append_of_none hn, dictGet, if_pos rfl]

theorem dictGet_dictInsert_ne {κ α : Type} [DecidableEq κ]
    (d : List (κ × α)) (k : κ) (v : α) (k2 : κ) (h : k2 ≠ k) :
    dictGet (dictInsert d k v) k2 = dictGet d k2 := by
  unfold dictInsert
  by_cases hs : (dictGet d k).isSome
  · rw [if_pos hs]
    exact dictGet_map_overwrite_ne d k v k2 h
  · rw [if_neg hs]
    exact dictGet_append_single_ne d k v k2 h

/-! ## Ingestion-pipeline lemmas -/

theorem resolvedToken_fallback (mapping : List (String × Int)) (row : Row)
    (h1 : optTruthyInt row.instrument_token = false) (h2 : row.symbol ≠ "") :
    resolvedToken mapping row = get_instrument_token mapping row.symbol := by
  unfold resolvedToken
  rw [if_pos ⟨h1, h2⟩]

theorem processRow_skip_token (env : PipelineEnv) (mapping : List (String × Int))
    (access_token : String) (st : GlobalState) (index : Nat) (row : Row)
    (h : optTruthyInt (resolvedToken mapping row) = false) :
    processRow env mapping access_token st index row = st := by
  unfold processRow
  split
  · rfl
  · rename_i tok hrt
    rw [hrt] at h
    unfold optTruthyInt at h
    rw [decide_eq_false_iff_not, not_not] at h
    rw [if_pos h]

theorem processRow_skip_exn (env : PipelineEnv) (mapping : List (String × Int))
    (access_token : String) (st : GlobalState) (index : Nat) (row : Row)
    (h : ∀ pl, env.place_order index pl = none) :
    processRow env mapping access_token st index row = st := by
  unfold processRow
  split
  · rfl
  · rename_i tok hrt
    by_cases ht : tok = 0
    · rw [if_pos ht]
    · rw [if_neg ht, h]

/-- The three possible effects of one row: skipped (state unchanged), or a
completed placement that inserts the record — and, for a BUY row carrying
a stop-loss price, also the watch. -/
theorem processRow_shape (env : PipelineEnv) (mapping : List (String × Int))
    (access_token : String) (st : GlobalState) (index : Nat) (row : Row) :
    processRow env mapping access_token st index row = st ∨
    (∃ tok result,
      resolvedToken mapping row = some tok ∧ tok ≠ 0 ∧
      env.place_order index (rowPayload row tok) = some result ∧
      ((pyUpper (row.transaction_type.getD "BUY") = "BUY" ∧
          row.stop_loss_price.isSome ∧
        processRow env mapping access_token st index row =
          { active_orders := dictInsert st.active_orders
              (rowOrderId result (env.now index) index)
              (rowRecord row tok access_token (env.now index) result),
            stop_loss_orders := dictInsert st.stop_loss_orders
              (rowOrderId result (env.now index) index)
              (rowWatch row tok access_token) }) ∨
       (processRow env mapping access_token st index row =
          { active_orders := dictInsert st.active_orders
              (rowOrderId result (env.now index) index)
              (rowRecord row tok access_token (env.now index) result),
            stop_loss_orders := st.stop_loss_orders }))) := by
  unfold processRow
  split
  · exact Or.inl rfl
  · rename_i tok hrt
    by_cases ht : tok = 0
    · rw [if_pos ht]
      exact Or.inl rfl
    · rw [if_neg ht]
      cases hpl : env.place_order index (rowPayload row tok) with
      | none => exact Or.inl rfl
      | some result =>
          right
          refine ⟨tok, result, hrt, ht, hpl, ?_⟩
          dsimp only
          by_cases hb : pyUpper (row.transaction_type.getD "BUY") = "BUY" ∧
              row.stop_loss_price.isSome
          · rw [if_pos hb]
            exact Or.inl ⟨hb.1, hb.2, rfl⟩
          · rw [if_neg hb]
            exact Or.inr rfl

theorem processRow_active_status (env : PipelineEnv) (mapping : List (String × Int))
    (access_token : String) (st : GlobalState) (index : Nat) (row : Row)
    (oid : String) (rec : OrderRecord)
    (h : (oid, rec) ∈ (processRow env mapping access_token st index row).active_orders) :
    (oid, rec) ∈ st.active_orders ∨ rec.status = "placed" := by
  rcases processRow_shape env mapping access_token st index row with heq |
    ⟨tok, result, _, _, _, ⟨_, _, heq⟩ | heq⟩
  · rw [heq] at h
    exact Or.inl h
  · rw [heq] at h
    rcases mem_dictInsert h with h | h
    · exact Or.inl h
    · right
      have : rec = rowRecord row tok access_token (env.now index) result :=
        congrArg Prod.snd h
      rw [this]
      rfl
  · rw [heq] at h
    rcases mem_dictInsert h with h | h
    · exact Or.inl h
    · right
      have : rec = rowRecord row tok access_token (env.now index) result :=
        congrArg Prod.snd h
      rw [this]
      rfl

theorem processRows_active_status (env : PipelineEnv)
    (mapping : List (String × Int)) (access_token : String) :
    ∀ (rows : List Row) (index : Nat) (st : GlobalState) (oid : String)
      (rec : OrderRecord),
      (oid, rec) ∈ (processRows env mapping access_token index rows st).active_orders →
      (oid, rec) ∈ st.active_orders ∨ rec.status = "placed" := by
  intro rows
  induction rows with
  | nil => intro index st oid rec h; exact Or.inl h
  | cons row rest ih =>
      intro index st oid rec h
      rcases ih (index + 1) (processRow env mapping access_token st index row)
        oid rec h with h | h
      · exact processRow_active_status env mapping access_token st index row oid rec h
      · exact Or.inr h

/-! ## Instrument-registry lemmas -/

theorem loadLoop_skip (acc : List (String × Int)) (item : InstrumentItem)
    (rest : List InstrumentItem)
    (h : item.symbol = none ∨ item.instrument_token = none) :
    loadLoop acc (item :: rest) = loadLoop acc rest := by
  obtain ⟨s, t⟩ := item
  rcases h with h | h
  · simp only at h
    subst h
    cases t with
    | none => rfl
    | some tc => rfl
  · simp only at h
    subst h
    cases s with
    | none => rfl
    | some s2 => rfl

theorem loadLoop_insert (acc : List (String × Int)) (s : String) (n : Int)
    (rest : List InstrumentItem) :
    loadLoop acc
      ({ symbol := some s, instrument_token := some (TokenCell.num n) } :: rest) =
    loadLoop (dictInsert acc (pyNorm s) n) rest := rfl

theorem loadLoop_malformed (acc : List (String × Int)) (s : String)
    (rest : List InstrumentItem) :
    loadLoop acc
      ({ symbol := some s, instrument_token := some TokenCell.malformed } :: rest) =
    acc := rfl

theorem processRow_placed (env : PipelineEnv) (mapping : List (String × Int))
    (access_token : String) (st : GlobalState) (index : Nat) (row : Row)
    (tok : Int) (result : PlaceResp)
    (hrt : resolvedToken mapping row = some tok) (ht : tok ≠ 0)
    (hpl : env.place_order index (rowPayload row tok) = some result) :
    (processRow env mapping access_token st index row).active_orders =
      dictInsert st.active_orders (rowOrderId result (env.now index) index)
        (rowRecord row tok access_token (env.now index) result) := by
  unfold processRow
  split
  · rename_i hrt2
    rw [hrt2] at hrt
    exact absurd hrt (by simp)
  · rename_i tok2 hrt2
    rw [hrt] at hrt2
    obtain rfl : tok2 = tok := (Option.some.inj hrt2).symm
    rw [if_neg ht]
    split
    · rename_i hpl2
      rw [hpl] at hpl2
      exact absurd hpl2 (by simp)
    · rename_i result2 hpl2
      rw [hpl] at hpl2
      obtain rfl : result2 = result := (Option.some.inj hpl2).symm
      dsimp only
      by_cases hb : pyUpper (row.transaction_type.getD "BUY") = "BUY" ∧
          row.stop_loss_price.isSome
      · rw [if_pos hb]
      · rw [if_neg hb]

theorem addToGroup_token_mem (acc : List (Int × List String)) (tok : Int)
    (oid : String) (t : Int) (h : t ∈ (addToGroup acc tok oid).map Prod.fst) :
    t ∈ acc.map Prod.fst ∨ t = tok := by
  unfold addToGroup at h
  by_cases hs : (dictGet acc tok).isSome
  · rw [if_pos hs] at h
    have hmap : ((acc.map (fun g => if g.1 = tok then (g.1, g.2 ++ [oid]) else g)).map
        Prod.fst) = acc.map Prod.fst := by
      rw [List.map_map]
      refine List.map_congr_left ?_
      intro g _
      by_cases hg : g.1 = tok <;> simp [hg]
    rw [hmap] at h
    exact Or.inl h
  · rw [if_neg hs, List.map_append] at h
    rcases List.mem_append.1 h with h | h
    · exact Or.inl h
    · right
      simpa using h

theorem groupByToken_tokens_aux (l : List (String × Watch)) :
    ∀ (acc : List (Int × List String)) (t : Int),
      t ∈ (l.foldl
        (fun acc p =>
          if p.2.instrument_token ≠ 0 then addToGroup acc p.2.instrument_token p.1
          else acc)
        acc).map Prod.fst →
      t ∈ acc.map Prod.fst ∨ ∃ p ∈ l, p.2.instrument_token = t := by
  induction l with
  | nil => intro acc t h; exact Or.inl h
  | cons p rest ih =>
      intro acc t h
      rw [List.foldl_cons] at h
      by_cases hp : p.2.instrument_token ≠ 0
      · rw [if_pos hp] at h
        rcases ih (addToGroup acc p.2.instrument_token p.1) t h with h | ⟨q, hq, hqt⟩
        · rcases addToGroup_token_mem acc _ _ t h with h | rfl
          · exact Or.inl h
          · exact Or.inr ⟨p, List.mem_cons_self _ _, rfl⟩
        · exact Or.inr ⟨q, List.mem_cons_of_mem _ hq, hqt⟩
      · rw [if_neg hp] at h
        rcases ih acc t h with h | ⟨q, hq, hqt⟩
        · exact Or.inl h
        · exact Or.inr ⟨q, List.mem_cons_of_mem _ hq, hqt⟩

theorem groupByToken_token_mem (sl : List (String × Watch)) (t : Int)
    (h : t ∈ (groupByToken sl).map Prod.fst) :
    ∃ p ∈ sl, p.2.instrument_token = t := by
  rcases groupByToken_tokens_aux sl [] t h with h | h
  · exact absurd h (by simp)
  · exact h

/-! ## Claim C1 -/

/-- Scenario refuting C1 as stated: one triggered watch whose liquidation
round trip completes with a broker *rejection* payload. -/
def c1Watch : Watch :=
  { symbol := "ABC", instrument_token := 1, quantity := 10, product := "I",
    stop_loss_price := 95, buy_price := 100, access_token := "tok" }

def c1Resp : PlaceResp := { order_id := none, accepted := false, raw := 7 }

def c1Env : MonitorEnv :=
  { get_current_price := fun t a => if t = 1 ∧ a = "tok" then some 94 else none
    place_order := fun _ _ _ => some c1Resp
    now := 0 }

def c1State : GlobalState :=
  { active_orders := [], stop_loss_orders := [("o1", c1Watch)] }

/-- C1 counterexample: the claim says a watch whose liquidation order
placement fails by broker rejection remains in the store; in the code the
watch "o1" is removed even though the broker's response is a rejection
(`accepted = false`) — removal tracks only the completion of the HTTP
round trip, not broker acceptance. -/
theorem C1_counterexample :
    c1Env.place_order "o1" (stopLossPayload c1Watch) c1Watch.access_token =
      some c1Resp ∧
    c1Resp.accepted = false ∧
    (check_stop_losses c1Env c1State).1.stop_loss_orders = [] := by
  refine ⟨rfl, rfl, ?_⟩
  decide

/-- C1 (amended): across any run of monitor passes over a store with
distinct keys, the liquidating call for a watch *completes* at most once,
and the watch is in the final store iff it was initially there and no
liquidation call for it ever completed — completion, not broker
acceptance, decides removal; a call that raises (transport/parse failure)
leaves the watch for the next pass. -/
theorem C1_liquidation_once_removal_iff_completed (envs : List MonitorEnv)
    (st : GlobalState) (hkeys : (st.stop_loss_orders.map Prod.fst).Nodup)
    (oid : String) :
    liqCompletedCount (runPasses envs st).2 oid ≤ 1 ∧
    (∀ w, ((oid, w) ∈ (runPasses envs st).1.stop_loss_orders ↔
      ((oid, w) ∈ st.stop_loss_orders ∧
        liqCompletedCount (runPasses envs st).2 oid = 0))) := by
  obtain ⟨_, _, r3, r4, _⟩ := runPasses_facts envs st hkeys
  exact ⟨r4 oid, fun w => r3 oid w⟩

theorem C1_liquidation_once_removal_iff_completed_witness :
    liqCompletedCount (runPasses [c1Env] c1State).2 "o1" ≤ 1 ∧
    (("o1", c1Watch) ∈ (runPasses [c1Env] c1State).1.stop_loss_orders ↔
      (("o1", c1Watch) ∈ c1State.stop_loss_orders ∧
        liqCompletedCount (runPasses [c1Env] c1State).2 "o1" = 0)) :=
  ⟨(C1_liquidation_once_removal_iff_completed [c1Env] c1State (by decide) "o1").1,
   (C1_liquidation_once_removal_iff_completed [c1Env] c1State (by decide) "o1").2
     c1Watch⟩

/-! ## Claim C2 -/

def c2Resp : PlaceResp := { order_id := some "o1", accepted := true, raw := 1 }

def c2Record : OrderRecord :=
  { symbol := "ABC", instrument_token := 1, transaction_type := "BUY",
    quantity := 10, price := 100, order_type := "MARKET", product := "I",
    time := 0, status := "placed", response := c2Resp, access_token := "tok" }

def c2Watch : Watch :=
  { symbol := "ABC", instrument_token := 1, quantity := 10, product := "I",
    stop_loss_price := 95, buy_price := 100, access_token := "tok" }

def c2SellResp : PlaceResp := { order_id := some "sell1", accepted := true, raw := 2 }

def c2Env : MonitorEnv :=
  { get_current_price := fun t a => if t = 1 ∧ a = "tok" then some 94 else none
    place_order := fun _ _ _ => some c2SellResp
    now := 99 }

def c2State : GlobalState :=
  { active_orders := [("o1", c2Record)], stop_loss_orders := [("o1", c2Watch)] }

/-- C2 evaluated at the failing input: the watch "o1" triggers and its
liquidation call completes successfully, the watch is removed — yet the
originating OrderRecord in `active_orders` is bit-for-bit unchanged; the
code writes the execution metadata onto the watch dictionary it is about
to delete (a dead store), never onto `active_orders[order_id]` (whose
record type has no execution fields at all). -/
theorem C2_record_never_marked :
    (c2Env.place_order "o1" (stopLossPayload c2Watch)
      c2Watch.access_token).isSome = true ∧
    (check_stop_losses c2Env c2State).1.stop_loss_orders = [] ∧
    (check_stop_losses c2Env c2State).1.active_orders = [("o1", c2Record)] := by
  refine ⟨by decide, ?_, ?_⟩ <;> decide

/-! ## Claim C3 -/

def c3Watch : Watch :=
  { symbol := "ABC", instrument_token := 1, quantity := 10, product := "I",
    stop_loss_price := 0, buy_price := 100, access_token := "tok" }

def c3Env : MonitorEnv :=
  { get_current_price := fun t a => if t = 1 ∧ a = "tok" then some 0 else none
    place_order := fun _ _ _ => some { order_id := none, accepted := true, raw := 0 }
    now := 0 }

def c3State : GlobalState :=
  { active_orders := [], stop_loss_orders := [("o1", c3Watch)] }

/-- C3 counterexample: the claim says liquidation triggers exactly when
the observed price c ≤ P.  Here the lookup succeeds with c = 0 ≤ P = 0,
yet the pass emits no liquidation attempt and leaves the watch in place:
the code first tests the stored price for Python truthiness, so P = 0
never triggers. -/
theorem C3_counterexample :
    c3Env.get_current_price c3Watch.instrument_token c3Watch.access_token =
      some 0 ∧
    (0 : ℚ) ≤ c3Watch.stop_loss_price ∧
    check_stop_losses c3Env c3State = (c3State, [Event.priceLookup 1 "tok"]) := by
  refine ⟨rfl, by decide, ?_⟩
  decide

/-- C3 (amended): for a watch whose instrument's price lookup in a pass
returned c, a liquidation attempt is emitted iff the stored stop-loss
price is non-zero (truthy) and c ≤ P. -/
theorem C3_trigger_boundary (env : MonitorEnv) (st : GlobalState)
    (hkeys : (st.stop_loss_orders.map Prod.fst).Nodup)
    (oid0 : String) (w0 : Watch) (tl : List (String × Watch))
    (hsl : st.stop_loss_orders = (oid0, w0) :: tl) (ha : w0.access_token ≠ "")
    (oid : String) (w : Watch) (hw : (oid, w) ∈ st.stop_loss_orders)
    (ht : w.instrument_token ≠ 0) (c : ℚ)
    (hc : env.get_current_price w.instrument_token w0.access_token = some c) :
    (∃ out, Event.liqAttempt oid out c ∈ (check_stop_losses env st).2) ↔
      (w.stop_loss_price ≠ 0 ∧ c ≤ w.stop_loss_price) := by
  rw [check_stop_losses_spec env st hkeys oid0 w0 tl hsl ha]
  dsimp only
  constructor
  · rintro ⟨out, hmem⟩
    rw [passEvents_attempt_mem env w0.access_token st.stop_loss_orders hkeys
      oid out c] at hmem
    obtain ⟨w2, hw2, hout⟩ := hmem
    have hww : w2 = w := value_unique hkeys hw2 hw
    subst hww
    have htr := (watchOutcome_eq_some hout).2.2.1
    unfold slTriggered at htr
    rw [Bool.and_eq_true, decide_eq_true_eq, decide_eq_true_eq] at htr
    exact htr
  · rintro ⟨h1, h2⟩
    refine ⟨env.place_order oid (stopLossPayload w) w.access_token, ?_⟩
    rw [passEvents_attempt_mem env w0.access_token st.stop_loss_orders hkeys]
    refine ⟨w, hw, ?_⟩
    unfold watchOutcome
    rw [if_neg ht, hc]
    have htr : slTriggered w.stop_loss_price c = true := by
      unfold slTriggered
      rw [Bool.and_eq_true, decide_eq_true_eq, decide_eq_true_eq]
      exact ⟨h1, h2⟩
    have hred : (match some c with
        | none => none
        | some c2 =>
            if slTriggered w.stop_loss_price c2 = true then
              some (c2, env.place_order oid (stopLossPayload w) w.access_token)
            else none) =
        (if slTriggered w.stop_loss_price c = true then
          some (c, env.place_order oid (stopLossPayload w) w.access_token)
        else none) := rfl
    rw [hred, if_pos htr]

def c3wWatch : Watch :=
  { symbol := "ABC", instrument_token := 1, quantity := 10, product := "I",
    stop_loss_price := 95, buy_price := 100, access_token := "tok" }

def c3wEnv : MonitorEnv :=
  { get_current_price := fun t a => if t = 1 ∧ a = "tok" then some 94 else none
    place_order := fun _ _ _ => some { order_id := none, accepted := true, raw := 0 }
    now := 0 }

def c3wState : GlobalState :=
  { active_orders := [], stop_loss_orders := [("o1", c3wWatch)] }

theorem C3_trigger_boundary_witness :
    (∃ out, Event.liqAttempt "o1" out 94 ∈ (check_stop_losses c3wEnv c3wState).2) ↔
      (c3wWatch.stop_loss_price ≠ 0 ∧ (94 : ℚ) ≤ c3wWatch.stop_loss_price) :=
  C3_trigger_boundary c3wEnv c3wState (by decide) "o1" c3wWatch [] (by decide)
    (by decide) "o1" c3wWatch (by decide) (by decide) 94 (by decide)

/-! ## Claim C5 -/

def c5WatchA : Watch :=
  { symbol := "X", instrument_token := 1, quantity := 1, product := "I",
    stop_loss_price := 95, buy_price := 100, access_token := "" }

def c5WatchB : Watch :=
  { symbol := "Y", instrument_token := 2, quantity := 1, product := "I",
    stop_loss_price := 95, buy_price := 100, access_token := "tok" }

def c5Env : MonitorEnv :=
  { get_current_price := fun _ _ => some 90
    place_order := fun _ _ _ => some { order_id := none, accepted := true, raw := 0 }
    now := 0 }

def c5State : GlobalState :=
  { active_orders := [],
    stop_loss_orders := [("o1", c5WatchA), ("o2", c5WatchB)] }

/-- C5 counterexample: the claim says a watch that does carry a credential
is still evaluated even when another watch has none.  Here the *first*
watch has an empty credential, so the whole pass returns at once: watch
"o2" carries a valid credential, its price is available and would trigger,
yet no lookup and no attempt happen at all. -/
theorem C5_counterexample :
    c5WatchB.access_token ≠ "" ∧
    slTriggered c5WatchB.stop_loss_price 90 = true ∧
    c5Env.get_current_price c5WatchB.instrument_token c5WatchB.access_token =
      some 90 ∧
    check_stop_losses c5Env c5State = (c5State, []) := by
  refine ⟨by decide, by decide, rfl, ?_⟩
  decide

/-- C5 (amended): every pass reads the credential of the *first* watch in
the store; if it is falsy the entire pass is abandoned (no lookups, no
evaluation, no removal), and otherwise that single credential is used for
every instrument's price lookup, whatever credentials the other watches
carry. -/
theorem C5_first_watch_credential (env : MonitorEnv) (st : GlobalState)
    (hkeys : (st.stop_loss_orders.map Prod.fst).Nodup)
    (oid0 : String) (w0 : Watch) (tl : List (String × Watch))
    (hsl : st.stop_loss_orders = (oid0, w0) :: tl) :
    (w0.access_token = "" → check_stop_losses env st = (st, [])) ∧
    (w0.access_token ≠ "" → ∀ t a2,
      Event.priceLookup t a2 ∈ (check_stop_losses env st).2 →
      a2 = w0.access_token) := by
  constructor
  · intro ha
    unfold check_stop_losses
    rw [hsl]
    simp [ha, ← hsl]
  · intro ha t a2 hmem
    rw [check_stop_losses_spec env st hkeys oid0 w0 tl hsl ha] at hmem
    exact lookup_cred_flatMap env w0.access_token st.stop_loss_orders _ t a2 hmem

theorem C5_first_watch_credential_witness :
    (c5WatchA.access_token = "" →
      check_stop_losses c5Env c5State = (c5State, [])) ∧
    (c5WatchA.access_token ≠ "" → ∀ t a2,
      Event.priceLookup t a2 ∈ (check_stop_losses c5Env c5State).2 →
      a2 = c5WatchA.access_token) :=
  C5_first_watch_credential c5Env c5State (by decide) "o1" c5WatchA
    [("o2", c5WatchB)] (by decide)

/-! ## Claim C7 -/

/-- C7: in a pass over N watches (all with truthy instrument tokens, as
the pipeline guarantees) spanning K distinct tokens, the issued price
lookups are exactly one per distinct token — pairwise distinct, at most N
of them, covering a token iff some watch carries it — and each watch's
liquidation attempt is decided solely by its own instrument's lookup
(`watchOutcome`), so one instrument's lookup failure cannot affect the
others. -/
theorem C7_price_grouping (env : MonitorEnv) (st : GlobalState)
    (hkeys : (st.stop_loss_orders.map Prod.fst).Nodup)
    (oid0 : String) (w0 : Watch) (tl : List (String × Watch))
    (hsl : st.stop_loss_orders = (oid0, w0) :: tl) (ha : w0.access_token ≠ "")
    (htok : ∀ p ∈ st.stop_loss_orders, p.2.instrument_token ≠ 0) :
    (lookupTokens (check_stop_losses env st).2).Nodup ∧
    (lookupTokens (check_stop_losses env st).2).length ≤
      st.stop_loss_orders.length ∧
    (∀ t, t ∈ lookupTokens (check_stop_losses env st).2 ↔
      ∃ p ∈ st.stop_loss_orders, p.2.instrument_token = t) ∧
    (∀ oid out c, Event.liqAttempt oid out c ∈ (check_stop_losses env st).2 ↔
      ∃ w, (oid, w) ∈ st.stop_loss_orders ∧
        watchOutcome env w0.access_token oid w = some (c, out)) := by
  rw [check_stop_losses_spec env st hkeys oid0 w0 tl hsl ha]
  dsimp only
  obtain ⟨g1, g2, g3, g4, g5⟩ := groupsSpec_groupByToken st.stop_loss_orders hkeys
  have hlt : lookupTokens (passEvents env w0.access_token st.stop_loss_orders) =
      (groupByToken st.stop_loss_orders).map Prod.fst :=
    lookupTokens_flatMap env w0.access_token st.stop_loss_orders _
  refine ⟨?_, ?_, ?_, ?_⟩
  · rw [hlt]
    exact g1
  · rw [hlt, List.length_map]
    exact groupByToken_length _
  · intro t
    rw [hlt]
    constructor
    · intro hmem
      exact groupByToken_token_mem st.stop_loss_orders t hmem
    · rintro ⟨p, hp, hpt⟩
      obtain ⟨g, hg, hgt, _⟩ := g5 p hp (hpt ▸ htok p hp)
      have : g.1 = t := hgt.trans hpt
      rw [← this]
      exact List.mem_map_of_mem Prod.fst hg
  · intro oid out c
    exact passEvents_attempt_mem env w0.access_token st.stop_loss_orders hkeys
      oid out c

def c7WatchA : Watch :=
  { symbol := "X", instrument_token := 1, quantity := 1, product := "I",
    stop_loss_price := 95, buy_price := 100, access_token := "tok" }

def c7WatchB : Watch :=
  { symbol := "X", instrument_token := 1, quantity := 2, product := "I",
    stop_loss_price := 90, buy_price := 100, access_token := "tok" }

def c7WatchC : Watch :=
  { symbol := "Z", instrument_token := 2, quantity := 1, product := "I",
    stop_loss_price := 50, buy_price := 60, access_token := "tok" }

def c7Env : MonitorEnv :=
  { get_current_price := fun t a => if t = 1 ∧ a = "tok" then some 94 else none
    place_order := fun _ _ _ => some { order_id := none, accepted := true, raw := 0 }
    now := 0 }

def c7State : GlobalState :=
  { active_orders := [],
    stop_loss_orders := [("o1", c7WatchA), ("o2", c7WatchB), ("o3", c7WatchC)] }

theorem C7_price_grouping_witness :
    (lookupTokens (check_stop_losses c7Env c7State).2).Nodup ∧
    (lookupTokens (check_stop_losses c7Env c7State).2).length ≤
      c7State.stop_loss_orders.length ∧
    ((1 : Int) ∈ lookupTokens (check_stop_losses c7Env c7State).2 ↔
      ∃ p ∈ c7State.stop_loss_orders, p.2.instrument_token = 1) ∧
    (∀ out c, Event.liqAttempt "o1" out c ∈ (check_stop_losses c7Env c7State).2 ↔
      ∃ w, ("o1", w) ∈ c7State.stop_loss_orders ∧
        watchOutcome c7Env "tok" "o1" w = some (c, out)) :=
  ⟨(C7_price_grouping c7Env c7State (by decide) "o1" c7WatchA
      [("o2", c7WatchB), ("o3", c7WatchC)] (by decide) (by decide) (by decide)).1,
   (C7_price_grouping c7Env c7State (by decide) "o1" c7WatchA
      [("o2", c7WatchB), ("o3", c7WatchC)] (by decide) (by decide) (by decide)).2.1,
   (C7_price_grouping c7Env c7State (by decide) "o1" c7WatchA
      [("o2", c7WatchB), ("o3", c7WatchC)] (by decide) (by decide) (by decide)).2.2.1 1,
   fun out c => (C7_price_grouping c7Env c7State (by decide) "o1" c7WatchA
      [("o2", c7WatchB), ("o3", c7WatchC)] (by decide) (by decide)
      (by decide)).2.2.2 "o1" out c⟩

/-! ## Claim C10 -/

/-- C10: a watch whose stored stop-loss price is 0 is never liquidated by
any monitor pass, whatever prices are observed — the trigger test first
requires the stored price to be truthy. -/
theorem C10_zero_stop_price_never_triggers (envs : List MonitorEnv)
    (st : GlobalState) (hkeys : (st.stop_loss_orders.map Prod.fst).Nodup)
    (oid : String) (w : Watch) (hw : (oid, w) ∈ st.stop_loss_orders)
    (hp : w.stop_loss_price = 0) (out : Option PlaceResp) (c : ℚ) :
    Event.liqAttempt oid out c ∉ (runPasses envs st).2 := by
  intro hmem
  obtain ⟨_, _, _, _, r5⟩ := runPasses_facts envs st hkeys
  obtain ⟨w2, hw2, htr⟩ := r5 oid out c hmem
  have hww : w2 = w := value_unique hkeys hw2 hw
  rw [hww, hp] at htr
  unfold slTriggered at htr
  simp at htr

def c10Watch : Watch :=
  { symbol := "ABC", instrument_token := 1, quantity := 10, product := "I",
    stop_loss_price := 0, buy_price := 100, access_token := "tok" }

def c10Env : MonitorEnv :=
  { get_current_price := fun _ _ => some 0
    place_order := fun _ _ _ => some { order_id := none, accepted := true, raw := 0 }
    now := 0 }

def c10State : GlobalState :=
  { active_orders := [], stop_loss_orders := [("o1", c10Watch)] }

theorem C10_zero_stop_price_never_triggers_witness :
    Event.liqAttempt "o1" none 0 ∉ (runPasses [c10Env] c10State).2 :=
  C10_zero_stop_price_never_triggers [c10Env] c10State (by decide) "o1" c10Watch
    (by decide) (by decide) none 0

/-! ## Claim C4 -/

def c4Row : Row :=
  { symbol := "ABC", instrument_token := some 1001, transaction_type := none,
    quantity := some 10, price := some 100, order_type := none, product := none,
    validity := none, tag := none, disclosed_quantity := none,
    trigger_price := none, is_amo := none, stop_loss_price := none }

def c4Resp : PlaceResp := { order_id := some "O1", accepted := false, raw := 3 }

def c4Env : PipelineEnv :=
  { place_order := fun _ _ => some c4Resp, now := fun _ => 0 }

/-- C4 counterexample: the claim says a row whose placement fails produces
an OrderRecord with status "failed".  Here the broker answers row 0 with a
rejection payload (`accepted = false`), yet the stored record's status is
the literal "placed" — the code stores `'status': 'placed'`
unconditionally on every completed call and has no "failed" status at
all. -/
theorem C4_counterexample :
    c4Env.place_order 0 (rowPayload c4Row 1001) = some c4Resp ∧
    c4Resp.accepted = false ∧
    (dictGet (process_excel_file c4Env [] "tok" [c4Row]
        { active_orders := [], stop_loss_orders := [] }).active_orders "O1").map
      (fun r => r.status) = some "placed" := by
  refine ⟨rfl, rfl, ?_⟩
  decide

/-- C4 (amended): a row whose placement call raises (transport failure)
produces no OrderRecord at all, is not retried, and processing continues;
a row whose call completes produces a record whether the broker accepted
or rejected it; and every OrderRecord the pipeline ever stores has status
"placed" — no other status exists. -/
theorem C4_failed_rows_and_status (env : PipelineEnv)
    (mapping : List (String × Int)) (access_token : String) :
    (∀ st index row, (∀ pl, env.place_order index pl = none) →
      processRow env mapping access_token st index row = st) ∧
    (∀ rows st oid rec,
      (oid, rec) ∈ (process_excel_file env mapping access_token rows st).active_orders →
      (oid, rec) ∈ st.active_orders ∨ rec.status = "placed") := by
  constructor
  · intro st index row h
    exact processRow_skip_exn env mapping access_token st index row h
  · intro rows st oid rec h
    exact processRows_active_status env mapping access_token rows 0 st oid rec h

def c4ExnEnv : PipelineEnv :=
  { place_order := fun _ _ => none, now := fun _ => 0 }

theorem C4_failed_rows_and_status_witness :
    processRow c4ExnEnv [] "tok" { active_orders := [], stop_loss_orders := [] }
      0 c4Row = { active_orders := [], stop_loss_orders := [] } :=
  (C4_failed_rows_and_status c4ExnEnv [] "tok").1
    { active_orders := [], stop_loss_orders := [] } 0 c4Row (fun _ => rfl)

/-! ## Claim C6 -/

def c6Row (s : String) (tk : Option Int) : Row :=
  { symbol := s, instrument_token := tk, transaction_type := none,
    quantity := some 1, price := some 10, order_type := none, product := none,
    validity := none, tag := none, disclosed_quantity := none,
    trigger_price := none, is_amo := none, stop_loss_price := none }

/-- The batch of the claim's example: row 3 (index 2) has no valid
instrument identifier (unknown symbol, no token), row 5 (index 4) suffers
a raised placement call. -/
def c6Rows : List Row :=
  [c6Row "A" (some 1), c6Row "B" (some 2), c6Row "ZZZ" none,
   c6Row "D" (some 4), c6Row "E" (some 5)]

def c6Env : PipelineEnv :=
  { place_order := fun i _ =>
      match i with
      | 0 => some { order_id := some "O1", accepted := true, raw := 0 }
      | 1 => some { order_id := some "O2", accepted := true, raw := 0 }
      | 3 => some { order_id := some "O4", accepted := true, raw := 0 }
      | _ => none
    now := fun _ => 0 }

/-- C6: rows are processed independently — a row that fails resolution or
whose placement call raises leaves the state exactly unchanged (so the
loop continues from the same state, nothing aborts), and in the claim's
5-row example (row 3 invalid identifier, row 5 placement failure) rows 1,
2 and 4 still produce their OrderRecords. -/
theorem C6_batch_isolation (env : PipelineEnv) (mapping : List (String × Int))
    (access_token : String) :
    (∀ st index row, optTruthyInt (resolvedToken mapping row) = false →
      processRow env mapping access_token st index row = st) ∧
    (∀ st index row, (∀ pl, env.place_order index pl = none) →
      processRow env mapping access_token st index row = st) ∧
    ((process_excel_file c6Env [] "tok" c6Rows
        { active_orders := [], stop_loss_orders := [] }).active_orders.map
      Prod.fst = ["O1", "O2", "O4"]) := by
  refine ⟨?_, ?_, ?_⟩
  · intro st index row h
    exact processRow_skip_token env mapping access_token st index row h
  · intro st index row h
    exact processRow_skip_exn env mapping access_token st index row h
  · decide

theorem C6_batch_isolation_witness :
    processRow c6Env [] "tok" { active_orders := [], stop_loss_orders := [] }
      2 (c6Row "ZZZ" none) = { active_orders := [], stop_loss_orders := [] } ∧
    (process_excel_file c6Env [] "tok" c6Rows
        { active_orders := [], stop_loss_orders := [] }).active_orders.map
      Prod.fst = ["O1", "O2", "O4"] :=
  ⟨(C6_batch_isolation c6Env [] "tok").1
      { active_orders := [], stop_loss_orders := [] } 2 (c6Row "ZZZ" none)
      (by decide),
   (C6_batch_isolation c6Env [] "tok").2.2⟩

/-! ## Claim C8 -/

/-- C8: `get_instrument_token` normalizes exactly as the loader does (both
go through `pyNorm`, i.e. strip-then-uppercase): empty input resolves to
none, non-empty input to the mapping's entry at the normalized key, and
the loader inserts under `pyNorm` keys; an ingested row with no truthy
explicit identifier resolves through the registry — an unknown symbol
skips the row with no OrderRecord, a known one produces a record whose
`instrument_token` is exactly the registry's mapping. -/
theorem C8_resolution (mapping : List (String × Int)) :
    (get_instrument_token mapping "" = none) ∧
    (∀ s, s ≠ "" → get_instrument_token mapping s = dictGet mapping (pyNorm s)) ∧
    (∀ acc s n rest, loadLoop acc
        ({ symbol := some s, instrument_token := some (TokenCell.num n) } :: rest) =
      loadLoop (dictInsert acc (pyNorm s) n) rest) ∧
    (∀ (env : PipelineEnv) access_token st index row,
      optTruthyInt row.instrument_token = false → row.symbol ≠ "" →
      get_instrument_token mapping row.symbol = none →
      processRow env mapping access_token st index row = st) ∧
    (∀ (env : PipelineEnv) access_token st index row n result,
      optTruthyInt row.instrument_token = false → row.symbol ≠ "" →
      get_instrument_token mapping row.symbol = some n → n ≠ 0 →
      env.place_order index (rowPayload row n) = some result →
      ((processRow env mapping access_token st index row).active_orders =
        dictInsert st.active_orders (rowOrderId result (env.now index) index)
          (rowRecord row n access_token (env.now index) result) ∧
       (rowRecord row n access_token (env.now index) result).instrument_token = n)) := by
  refine ⟨?_, ?_, ?_, ?_, ?_⟩
  · unfold get_instrument_token
    rw [if_pos rfl]
  · intro s hs
    unfold get_instrument_token
    rw [if_neg hs]
  · intro acc s n rest
    exact loadLoop_insert acc s n rest
  · intro env access_token st index row h1 h2 h3
    apply processRow_skip_token
    rw [resolvedToken_fallback mapping row h1 h2, h3]
    rfl
  · intro env access_token st index row n result h1 h2 h3 h4 h5
    have hrt : resolvedToken mapping row = some n := by
      rw [resolvedToken_fallback mapping row h1 h2, h3]
    exact ⟨processRow_placed env mapping access_token st index row n result
      hrt h4 h5, rfl⟩

def c8Map : List (String × Int) := [("ABC", 1001)]

def c8RowUnknown : Row := c6Row "zzz" none

theorem C8_resolution_witness :
    processRow c4ExnEnv c8Map "tok" { active_orders := [], stop_loss_orders := [] }
      0 c8RowUnknown = { active_orders := [], stop_loss_orders := [] } ∧
    get_instrument_token c8Map " abc " = dictGet c8Map (pyNorm " abc ") :=
  ⟨(C8_resolution c8Map).2.2.2.1 c4ExnEnv "tok"
      { active_orders := [], stop_loss_orders := [] } 0 c8RowUnknown
      (by decide) (by decide) (by decide),
   (C8_resolution c8Map).2.1 " abc " (by decide)⟩

/-! ## Claim C9 -/

def c9Data : List InstrumentItem :=
  [{ symbol := some "a ", instrument_token := some (TokenCell.num 1) },
   { symbol := some "B", instrument_token := some TokenCell.malformed },
   { symbol := some "C", instrument_token := some (TokenCell.num 2) }]

/-- C9 counterexample: the claim says malformed entries are skipped and
counted without aborting the load of the remaining entries.  Here the
second entry's identifier fails integer conversion and the load stops:
the well-formed third entry ("C", 2) is never inserted — the single `try`
around the whole loop makes one malformed entry abort the rest. -/
theorem C9_counterexample :
    load_instrument_mapping c9Data = [("A", 1)] ∧
    dictGet (load_instrument_mapping c9Data) (pyNorm "C") = none := by
  refine ⟨?_, ?_⟩ <;> decide

/-- C9 (amended): the loader inserts every entry carrying both a symbol
and a numeric identifier under the normalized (stripped, uppercased)
symbol with last-write-wins semantics; entries missing either field are
skipped (without any failure count) and loading continues; but the first
entry whose identifier fails integer conversion aborts the load, keeping
only what was inserted before it. -/
theorem C9_load_behaviour :
    (∀ acc item rest, (item.symbol = none ∨ item.instrument_token = none) →
      loadLoop acc (item :: rest) = loadLoop acc rest) ∧
    (∀ (acc : List (String × Int)) s n rest, loadLoop acc
        ({ symbol := some s, instrument_token := some (TokenCell.num n) } :: rest) =
      loadLoop (dictInsert acc (pyNorm s) n) rest) ∧
    (∀ (acc : List (String × Int)) s rest, loadLoop acc
        ({ symbol := some s, instrument_token := some TokenCell.malformed } :: rest) =
      acc) ∧
    (∀ (d : List (String × Int)) k v, dictGet (dictInsert d k v) k = some v) ∧
    (∀ (d : List (String × Int)) k v k2, k2 ≠ k →
      dictGet (dictInsert d k v) k2 = dictGet d k2) := by
  refine ⟨?_, ?_, ?_, ?_, ?_⟩
  · intro acc item rest h
    exact loadLoop_skip acc item rest h
  · intro acc s n rest
    exact loadLoop_insert acc s n rest
  · intro acc s rest
    exact loadLoop_malformed acc s rest
  · intro d k v
    exact dictGet_dictInsert_self d k v
  · intro d k v k2 h
    exact dictGet_dictInsert_ne d k v k2 h

theorem C9_load_behaviour_witness :
    loadLoop [] ({ symbol := none, instrument_token := some (TokenCell.num 5) } ::
      c9Data) = loadLoop [] c9Data ∧
    dictGet (dictInsert ([] : List (String × Int)) "A" 1) "A" = some 1 :=
  ⟨C9_load_behaviour.1 []
      ({ symbol := none, instrument_token := some (TokenCell.num 5) } :
        InstrumentItem)
      c9Data (Or.inl rfl),
   C9_load_behaviour.2.2.2.1 [] "A" 1⟩

end UpstoxTrader
